import Mathlib

/-!
Verification of the grocery-list manager against its specification.

The development shallowly embeds the two core components of the repository:

* the `DataStore` persistence class (`src/unnamed/part_000`): namespace
  validation, construction, `get`/`set`, `merge`/`_deepMerge`,
  `deleteItem`/`_navigateToPath`;
* the `GroceryApp` logic (`src/src/js/main.js`): the shopping/unchecked id
  sets with their mutating operations, and the JSON catalog import merger
  of `handleImportFile`.

Modelling conventions:

* JSON values are the inductive `Jval` (mutually inductive with `JArr` and
  `JObj` so that all recursions are structural).  JavaScript numbers are
  modelled as exact decimals `m / 10 ^ e` (floating-point rounding and
  overflow to Infinity are out of scope); `undefined` is modelled as
  `Option.none` where it can occur.
* JavaScript strings are Lean `String`s; `trim`, `toLowerCase` and
  `split('.')` are re-implemented explicitly (`jsTrim`, `jsLower`,
  `splitOnDots`) over the character list, covering the behaviour on the
  character data relevant here.
* JS `Set`s of id/key strings are modelled as `Finset String`.
* Object property access is modelled on own (JSON) properties; prototype
  chains are out of scope.  For arrays, the own properties are the
  canonical indices and `length`, as used by the `in` checks of
  `deleteItem`.
* The platform storage backends are modelled per the code's two paths: the
  chrome path stores values directly (`dsGet`/state `Option Jval`), the web
  path stores `JSON.stringify` text (`webGet`/`webSet` with a verified
  `stringify`/`parseJSON` pair standing in for the JSON built-ins).
-/

namespace Groceries

/-! ## Characters and strings: JS `trim`, `toLowerCase`, `split('.')` -/

/-- White-space characters recognised by JavaScript's `String.prototype.trim`
(the ASCII ones plus the common Unicode space characters). -/
def isJsWs (c : Char) : Bool :=
  c == ' ' || c == '\t' || c == '\n' || c == '\r' ||
  c == '\x0b' || c == '\x0c' || c == ' ' || c == '﻿'

/-- Drop leading white-space. -/
def trimStart (l : List Char) : List Char := l.dropWhile isJsWs

/-- Drop trailing white-space. -/
def trimEnd (l : List Char) : List Char := (l.reverse.dropWhile isJsWs).reverse

/-- JS `trim` on a character list. -/
def trimChars (l : List Char) : List Char := trimEnd (trimStart l)

/-- JS `String.prototype.trim`. -/
def jsTrim (s : String) : String := ⟨trimChars s.data⟩

/-- ASCII lower-casing of one character, as done by `toLowerCase` on the
ASCII range. -/
def lowerChar (c : Char) : Char :=
  if 'A' ≤ c && c ≤ 'Z' then Char.ofNat (c.toNat + 32) else c

/-- JS `String.prototype.toLowerCase` (ASCII range). -/
def jsLower (s : String) : String := ⟨s.data.map lowerChar⟩

/-- One splitting step of `split('.')`: accumulate the current segment. -/
def splitDotsAux : List Char → List Char → List String
  | acc, [] => [⟨acc.reverse⟩]
  | acc, c :: cs =>
      if c = '.' then ⟨acc.reverse⟩ :: splitDotsAux [] cs
      else splitDotsAux (c :: acc) cs

/-- JS `String.prototype.split('.')`. -/
def splitOnDots (s : String) : List String := splitDotsAux [] s.data

theorem dropWhile_eq_self_of_head {p : Char → Bool} :
    ∀ {l : List Char}, (∀ c ∈ l.head?, p c = false) → l.dropWhile p = l
  | [], _ => rfl
  | c :: cs, h => by
      have hc : p c = false := h c rfl
      simp [List.dropWhile, hc]

theorem head_of_dropWhile {p : Char → Bool} :
    ∀ {l : List Char} {c : Char}, c ∈ (l.dropWhile p).head? → p c = false := by
  intro l
  induction l with
  | nil => intro c h; simp [List.dropWhile] at h
  | cons a t ih =>
      intro c h
      by_cases hp : p a = true
      · exact ih (by simpa [List.dropWhile, hp] using h)
      · simp [List.dropWhile, hp] at h
        simp [h] at hp
        simp [hp]

theorem exists_dropWhile_pre (p : Char → Bool) :
    ∀ l : List Char, ∃ t, t ++ l.dropWhile p = l
  | [] => ⟨[], rfl⟩
  | c :: cs => by
      by_cases hc : p c = true
      · rcases exists_dropWhile_pre p cs with ⟨t, ht⟩
        exact ⟨c :: t, by simp [List.dropWhile, hc, ht]⟩
      · exact ⟨[], by simp [List.dropWhile, hc]⟩

theorem head_append_of_ne_nil {α : Type} :
    ∀ {a b : List α}, a ≠ [] → (a ++ b).head? = a.head?
  | [], _, h => absurd rfl h
  | _ :: _, _, _ => rfl

/-- The head of `trimEnd m` is the head of `m` (when `trimEnd m` is
nonempty): trimming at the end only removes a suffix. -/
theorem mem_head?_trimEnd {m : List Char} {c : Char}
    (h : c ∈ (trimEnd m).head?) : c ∈ m.head? := by
  rcases exists_dropWhile_pre isJsWs m.reverse with ⟨t, ht⟩
  have hm : trimEnd m ++ t.reverse = m := by
    have := congrArg List.reverse ht
    simpa [trimEnd] using this
  have hne : trimEnd m ≠ [] := by
    intro hnil
    rw [hnil] at h
    simp at h
  rw [← hm, head_append_of_ne_nil hne]
  exact h

theorem trimStart_idem (l : List Char) : trimStart (trimStart l) = trimStart l :=
  dropWhile_eq_self_of_head (fun _ hc => head_of_dropWhile hc)

theorem trimEnd_idem (l : List Char) : trimEnd (trimEnd l) = trimEnd l := by
  unfold trimEnd
  rw [List.reverse_reverse, dropWhile_eq_self_of_head (fun _ hc => head_of_dropWhile hc)]

theorem trimStart_trimEnd_trimStart (l : List Char) :
    trimStart (trimEnd (trimStart l)) = trimEnd (trimStart l) :=
  dropWhile_eq_self_of_head (fun _ hc =>
    head_of_dropWhile (mem_head?_trimEnd hc))

theorem trimChars_idem (l : List Char) : trimChars (trimChars l) = trimChars l := by
  unfold trimChars
  rw [trimStart_trimEnd_trimStart, trimEnd_idem]

theorem jsTrim_idem (s : String) : jsTrim (jsTrim s) = jsTrim s := by
  unfold jsTrim
  exact congrArg String.mk (trimChars_idem s.data)

theorem trimChars_eq_self {l : List Char} (h : ∀ c ∈ l, isJsWs c = false) :
    trimChars l = l := by
  unfold trimChars trimStart trimEnd
  rw [dropWhile_eq_self_of_head (fun c hc => h c (List.mem_of_mem_head? hc))]
  rw [dropWhile_eq_self_of_head
    (fun c hc => h c ((List.mem_reverse).mp (List.mem_of_mem_head? hc)))]
  rw [List.reverse_reverse]

theorem jsTrim_eq_self {s : String} (h : ∀ c ∈ s.data, isJsWs c = false) :
    jsTrim s = s := by
  unfold jsTrim
  rw [trimChars_eq_self h]

/-! ## Decimal notation for natural numbers

The templates `item-NOW-COUNTER` of the import merger and the number
tokens of the JSON text format both print natural numbers in decimal.  The
digits are produced little-endian first, then reversed. -/

/-- Little-endian decimal digits, with fuel (the fuel keeps the recursion
structural, so that concrete values reduce inside the kernel). -/
def natToDigitsRevAux : Nat → Nat → List Nat
  | _, 0 => []
  | n, fuel + 1 => if n = 0 then [] else n % 10 :: natToDigitsRevAux (n / 10) fuel

/-- Little-endian decimal digits of a natural number (`0` has no digits);
`n` itself is always enough fuel. -/
def natToDigitsRev (n : Nat) : List Nat := natToDigitsRevAux n n

theorem natToDigitsRevAux_stable :
    ∀ fuel n, n ≤ fuel → natToDigitsRevAux n fuel = natToDigitsRevAux n n := by
  intro fuel
  induction fuel using Nat.strong_induction_on with
  | _ fuel ih =>
      intro n hn
      match fuel, n with
      | 0, n =>
          interval_cases n
          rfl
      | fuel + 1, 0 => rfl
      | fuel + 1, m + 1 =>
          show natToDigitsRevAux (m + 1) (fuel + 1) = natToDigitsRevAux (m + 1) (m + 1)
          simp only [natToDigitsRevAux, Nat.succ_ne_zero, if_false]
          have hlt : (m + 1) / 10 < m + 1 := Nat.div_lt_self (Nat.succ_pos m) (by norm_num)
          rw [ih fuel (Nat.lt_succ_self fuel) ((m + 1) / 10) (by omega)]
          rw [ih m (by omega) ((m + 1) / 10) (by omega)]

/-- The defining recurrence of `natToDigitsRev`. -/
theorem natToDigitsRev_eq (n : Nat) :
    natToDigitsRev n = if n = 0 then [] else n % 10 :: natToDigitsRev (n / 10) := by
  match n with
  | 0 => rfl
  | m + 1 =>
      show natToDigitsRevAux (m + 1) (m + 1) = _
      simp only [natToDigitsRevAux, Nat.succ_ne_zero, if_false]
      rw [natToDigitsRevAux_stable m ((m + 1) / 10)
        (by omega)]
      rfl

/-- Value of a little-endian digit list. -/
def ofDigitsRev : List Nat → Nat
  | [] => 0
  | d :: ds => d + 10 * ofDigitsRev ds

theorem ofDigitsRev_natToDigitsRev (n : Nat) :
    ofDigitsRev (natToDigitsRev n) = n := by
  induction n using Nat.strong_induction_on with
  | _ n ih =>
      by_cases h : n = 0
      · subst h; rw [natToDigitsRev_eq]; simp [ofDigitsRev]
      · rw [natToDigitsRev_eq]
        simp only [h, if_false, ofDigitsRev]
        rw [ih (n / 10) (Nat.div_lt_self (Nat.pos_of_ne_zero h) (by norm_num))]
        exact Nat.mod_add_div n 10

theorem natToDigitsRev_lt (n : Nat) : ∀ d ∈ natToDigitsRev n, d < 10 := by
  induction n using Nat.strong_induction_on with
  | _ n ih =>
      by_cases h : n = 0
      · subst h; rw [natToDigitsRev_eq]; simp
      · rw [natToDigitsRev_eq]
        simp only [h, if_false, List.mem_cons]
        rintro d (rfl | hd)
        · exact Nat.mod_lt n (by norm_num)
        · exact ih (n / 10) (Nat.div_lt_self (Nat.pos_of_ne_zero h) (by norm_num)) d hd

/-- The decimal character list of a natural number (`"0"` for zero,
no leading zeros otherwise), as produced by JS number-to-string. -/
def natLitChars (n : Nat) : List Char :=
  if n = 0 then ['0'] else ((natToDigitsRev n).reverse.map Nat.digitChar)

/-- The decimal string of a natural number. -/
def natLit (n : Nat) : String := ⟨natLitChars n⟩

/-- Value of a big-endian decimal character list, as read back by a
parser. -/
def digitsVal (cs : List Char) : Nat :=
  cs.foldl (fun a c => 10 * a + (c.toNat - 48)) 0

theorem digitChar_toNat_sub : ∀ d : Nat, d < 10 → (Nat.digitChar d).toNat - 48 = d := by
  decide

theorem digitChar_isDigit : ∀ d : Nat, d < 10 → (Nat.digitChar d).isDigit = true := by
  decide

theorem digitsVal_aux (ds : List Nat) (hds : ∀ d ∈ ds, d < 10) (a : Nat) :
    List.foldl (fun a c => 10 * a + (c.toNat - 48)) a (ds.reverse.map Nat.digitChar)
      = a * 10 ^ ds.length + ofDigitsRev ds := by
  induction ds generalizing a with
  | nil => simp [ofDigitsRev]
  | cons d t ih =>
      have hd : d < 10 := hds d (by simp)
      have ht : ∀ x ∈ t, x < 10 := fun x hx => hds x (by simp [hx])
      have hchar : (Nat.digitChar d).toNat - 48 = d := digitChar_toNat_sub d hd
      simp only [List.reverse_cons, List.map_append, List.foldl_append, ih ht a,
        List.map_cons, List.map_nil, List.foldl_cons, List.foldl_nil, hchar,
        ofDigitsRev, List.length_cons]
      ring

theorem digitsVal_natLitChars (n : Nat) : digitsVal (natLitChars n) = n := by
  unfold natLitChars digitsVal
  by_cases h : n = 0
  · subst h; decide
  · simp only [h, if_false]
    rw [digitsVal_aux (natToDigitsRev n) (natToDigitsRev_lt n) 0]
    simp [ofDigitsRev_natToDigitsRev]

theorem natLit_injective : Function.Injective natLit := by
  intro a b hab
  have : natLitChars a = natLitChars b := congrArg String.data hab
  have := congrArg digitsVal this
  rwa [digitsVal_natLitChars, digitsVal_natLitChars] at this

theorem natLitChars_ne_nil (n : Nat) : natLitChars n ≠ [] := by
  intro hc
  have h0 := digitsVal_natLitChars n
  rw [hc] at h0
  simp [digitsVal] at h0
  rw [← h0] at hc
  simp [natLitChars] at hc

theorem natLitChars_all_digits (n : Nat) : ∀ c ∈ natLitChars n, c.isDigit = true := by
  unfold natLitChars
  by_cases h : n = 0
  · simp [h]
  · simp only [h, if_false, List.mem_map, List.mem_reverse]
    rintro c ⟨d, hd, rfl⟩
    exact digitChar_isDigit d (natToDigitsRev_lt n d hd)

/-! ## JSON values

`Jval`, `JArr` and `JObj` are mutually inductive so that every recursion
over nested values is structurally well-founded.  A `jnum m e` denotes the
decimal number `m / 10 ^ e`. -/

mutual

inductive Jval where
  | jnull : Jval
  | jbool (b : Bool) : Jval
  | jnum (m : Int) (e : Nat) : Jval
  | jstr (s : String) : Jval
  | jarr (elems : JArr) : Jval
  | jobj (fields : JObj) : Jval

inductive JArr where
  | nil : JArr
  | cons (hd : Jval) (tl : JArr) : JArr

inductive JObj where
  | nil : JObj
  | cons (key : String) (val : Jval) (tl : JObj) : JObj

end

open Jval

mutual

def beqJ : Jval → Jval → Bool
  | jnull, jnull => true
  | jbool a, jbool b => a == b
  | jnum m1 e1, jnum m2 e2 => m1 == m2 && e1 == e2
  | jstr a, jstr b => a == b
  | jarr a, jarr b => beqA a b
  | jobj a, jobj b => beqO a b
  | _, _ => false

def beqA : JArr → JArr → Bool
  | .nil, .nil => true
  | .cons x xs, .cons y ys => beqJ x y && beqA xs ys
  | _, _ => false

def beqO : JObj → JObj → Bool
  | .nil, .nil => true
  | .cons k1 v1 t1, .cons k2 v2 t2 => k1 == k2 && beqJ v1 v2 && beqO t1 t2
  | _, _ => false

end

mutual

theorem beqJ_iff : ∀ a b : Jval, beqJ a b = true ↔ a = b
  | jnull, jnull => by simp [beqJ]
  | jbool _, jbool _ => by simp [beqJ]
  | jnum _ _, jnum _ _ => by simp [beqJ]
  | jstr _, jstr _ => by simp [beqJ]
  | jarr a, jarr b => by simp [beqJ, beqA_iff a b]
  | jobj a, jobj b => by simp [beqJ, beqO_iff a b]
  | jnull, jbool _ => by simp [beqJ]
  | jnull, jnum _ _ => by simp [beqJ]
  | jnull, jstr _ => by simp [beqJ]
  | jnull, jarr _ => by simp [beqJ]
  | jnull, jobj _ => by simp [beqJ]
  | jbool _, jnull => by simp [beqJ]
  | jbool _, jnum _ _ => by simp [beqJ]
  | jbool _, jstr _ => by simp [beqJ]
  | jbool _, jarr _ => by simp [beqJ]
  | jbool _, jobj _ => by simp [beqJ]
  | jnum _ _, jnull => by simp [beqJ]
  | jnum _ _, jbool _ => by simp [beqJ]
  | jnum _ _, jstr _ => by simp [beqJ]
  | jnum _ _, jarr _ => by simp [beqJ]
  | jnum _ _, jobj _ => by simp [beqJ]
  | jstr _, jnull => by simp [beqJ]
  | jstr _, jbool _ => by simp [beqJ]
  | jstr _, jnum _ _ => by simp [beqJ]
  | jstr _, jarr _ => by simp [beqJ]
  | jstr _, jobj _ => by simp [beqJ]
  | jarr _, jnull => by simp [beqJ]
  | jarr _, jbool _ => by simp [beqJ]
  | jarr _, jnum _ _ => by simp [beqJ]
  | jarr _, jstr _ => by simp [beqJ]
  | jarr _, jobj _ => by simp [beqJ]
  | jobj _, jnull => by simp [beqJ]
  | jobj _, jbool _ => by simp [beqJ]
  | jobj _, jnum _ _ => by simp [beqJ]
  | jobj _, jstr _ => by simp [beqJ]
  | jobj _, jarr _ => by simp [beqJ]

theorem beqA_iff : ∀ a b : JArr, beqA a b = true ↔ a = b
  | .nil, .nil => by simp [beqA]
  | .cons x xs, .cons y ys => by simp [beqA, beqJ_iff x y, beqA_iff xs ys]
  | .nil, .cons _ _ => by simp [beqA]
  | .cons _ _, .nil => by simp [beqA]

theorem beqO_iff : ∀ a b : JObj, beqO a b = true ↔ a = b
  | .nil, .nil => by simp [beqO]
  | .cons k1 v1 t1, .cons k2 v2 t2 => by
      simp [beqO, beqJ_iff v1 v2, beqO_iff t1 t2, and_assoc]
  | .nil, .cons _ _ _ => by simp [beqO]
  | .cons _ _ _, .nil => by simp [beqO]

end

instance : DecidableEq Jval := fun a b => decidable_of_iff _ (beqJ_iff a b)

instance {ε α : Type} [DecidableEq ε] [DecidableEq α] : DecidableEq (Except ε α) :=
  fun x y =>
    match x, y with
    | .error a, .error b =>
        decidable_of_iff (a = b) ⟨fun h => by rw [h], fun h => by injection h⟩
    | .ok a, .ok b =>
        decidable_of_iff (a = b) ⟨fun h => by rw [h], fun h => by injection h⟩
    | .error _, .ok _ => isFalse (fun h => Except.noConfusion h)
    | .ok _, .error _ => isFalse (fun h => Except.noConfusion h)

instance : DecidableEq JArr := fun a b => decidable_of_iff _ (beqA_iff a b)

instance : DecidableEq JObj := fun a b => decidable_of_iff _ (beqO_iff a b)

/-! ## Basic operations on `JArr`/`JObj` -/

/-- Build a `JArr` from a list (convenience for concrete values). -/
def JArr.ofList : List Jval → JArr
  | [] => .nil
  | x :: xs => .cons x (JArr.ofList xs)

/-- Build a `JObj` from an association list (convenience). -/
def JObj.ofList : List (String × Jval) → JObj
  | [] => .nil
  | (k, v) :: xs => .cons k v (JObj.ofList xs)

/-- Number of elements of a JSON array. -/
def lengthA : JArr → Nat
  | .nil => 0
  | .cons _ tl => lengthA tl + 1

/-- Element at an index (`jnull` out of range). -/
def getA : JArr → Nat → Jval
  | .nil, _ => jnull
  | .cons x _, 0 => x
  | .cons _ tl, n + 1 => getA tl n

/-- Replace the element at an index. -/
def setA : JArr → Nat → Jval → JArr
  | .nil, _, _ => .nil
  | .cons _ tl, 0, v => .cons v tl
  | .cons x tl, n + 1, v => .cons x (setA tl n v)

/-- `Array.prototype.splice(i, 1)`: remove the element at an index. -/
def removeA : JArr → Nat → JArr
  | .nil, _ => .nil
  | .cons _ tl, 0 => tl
  | .cons x tl, n + 1 => .cons x (removeA tl n)

/-- Own-property lookup on a JSON object (first binding wins; JSON objects
have no duplicate keys). -/
def lookupO : JObj → String → Option Jval
  | .nil, _ => none
  | .cons k0 v0 tl, k => if k0 = k then some v0 else lookupO tl k

/-- Keys of a JSON object, in order. -/
def keysO : JObj → List String
  | .nil => []
  | .cons k _ tl => k :: keysO tl

/-- Assignment `obj[k] = v`: replace the first binding of `k`, or append a
new binding. -/
def setKeyO : JObj → String → Jval → JObj
  | .nil, k, v => .cons k v .nil
  | .cons k0 v0 tl, k, v =>
      if k0 = k then .cons k0 v tl else .cons k0 v0 (setKeyO tl k v)

/-- `delete obj[k]`: remove the binding(s) of `k`. -/
def removeKeyO : JObj → String → JObj
  | .nil, _ => .nil
  | .cons k0 v0 tl, k =>
      if k0 = k then removeKeyO tl k else .cons k0 v0 (removeKeyO tl k)

/-- One-level induction for `JObj` (no descent into the values), usable
with `induction … using`. -/
def JObj.inductionOn {P : JObj → Prop} (hnil : P .nil)
    (hcons : ∀ k v tl, P tl → P (.cons k v tl)) : ∀ o, P o
  | .nil => hnil
  | .cons k v tl => hcons k v tl (JObj.inductionOn hnil hcons tl)

/-- One-level induction for `JArr`. -/
def JArr.inductionOn {P : JArr → Prop} (hnil : P .nil)
    (hcons : ∀ x tl, P tl → P (.cons x tl)) : ∀ a, P a
  | .nil => hnil
  | .cons x tl => hcons x tl (JArr.inductionOn hnil hcons tl)

/-! ## JS value coercions used by the code under verification -/

/-- JS truthiness of a JSON value. -/
def jsTruthy : Jval → Bool
  | jnull => false
  | jbool b => b
  | jnum m _ => decide (m ≠ 0)
  | jstr s => decide (s ≠ "")
  | jarr _ => true
  | jobj _ => true

/-- Truthiness of a possibly-`undefined` value. -/
def truthyOpt : Option Jval → Bool
  | none => false
  | some v => jsTruthy v

/-- `a ?? b`: nullish coalescing (`null`/`undefined` fall through). -/
def jsCoalesce (a b : Option Jval) : Option Jval :=
  match a with
  | some jnull => b
  | some v => some v
  | none => b

/-- `raw?.k`: own-property access, `undefined` on non-objects. -/
def propGet (raw : Jval) (k : String) : Option Jval :=
  match raw with
  | jobj fs => lookupO fs k
  | _ => none

/-- Decimal character rendering of the number `m / 10 ^ e` (digits of `m`
with a decimal point inserted `e` places from the right, as both
`JSON.stringify` and `String(n)` print such decimals). -/
def numChars (m : Int) (e : Nat) : List Char :=
  let ds := natLitChars m.natAbs
  if e = 0 then (if m < 0 then '-' :: ds else ds)
  else
    let pad := List.replicate (e + 1 - ds.length) '0' ++ ds
    let body := pad.take (pad.length - e) ++ '.' :: pad.drop (pad.length - e)
    if m < 0 then '-' :: body else body

mutual

/-- JS `String(v)` conversion of a JSON value. -/
def jsToString : Jval → String
  | jnull => "null"
  | jbool true => "true"
  | jbool false => "false"
  | jnum m e => ⟨numChars m e⟩
  | jstr s => s
  | jarr l => ⟨arrJoinChars l⟩
  | jobj _ => "[object Object]"

/-- `Array.prototype.toString`: elements joined by commas, `null` elements
rendered empty. -/
def arrJoinChars : JArr → List Char
  | .nil => []
  | .cons jnull .nil => []
  | .cons x .nil => (jsToString x).data
  | .cons jnull tl => ',' :: arrJoinChars tl
  | .cons x tl => (jsToString x).data ++ ',' :: arrJoinChars tl

end

/-- Exponent suffix of a JS numeric string (`""` means exponent `0`). -/
def parseExpPart (cs : List Char) : Option Int :=
  match cs with
  | [] => some 0
  | c :: rest =>
      if c = 'e' ∨ c = 'E' then
        match rest with
        | '+' :: ds => if ds ≠ [] ∧ ds.all Char.isDigit then some (digitsVal ds) else none
        | '-' :: ds => if ds ≠ [] ∧ ds.all Char.isDigit then some (-(digitsVal ds : Int)) else none
        | ds => if ds ≠ [] ∧ ds.all Char.isDigit then some (digitsVal ds) else none
      else none

/-- Value of a decimal literal `mant` with `fracLen` fraction digits and
exponent `ex`. -/
def decValue (mant : Nat) (fracLen : Nat) (ex : Int) : Rat :=
  (mant : Rat) * (10 : Rat) ^ ex / (10 : Rat) ^ fracLen

/-- An unsigned JS decimal numeric literal (`"12"`, `"12.5"`, `".5"`,
`"5."`, optional exponent), evaluated exactly. -/
def parseUnsignedDec (cs : List Char) : Option Rat :=
  let ip := cs.takeWhile Char.isDigit
  let r1 := cs.dropWhile Char.isDigit
  match r1 with
  | '.' :: r2 =>
      let fp := r2.takeWhile Char.isDigit
      let r3 := r2.dropWhile Char.isDigit
      if ip = [] ∧ fp = [] then none
      else
        match parseExpPart r3 with
        | some ex => some (decValue (digitsVal (ip ++ fp)) fp.length ex)
        | none => none
  | _ =>
      if ip = [] then none
      else
        match parseExpPart r1 with
        | some ex => some (decValue (digitsVal ip) 0 ex)
        | none => none

/-- JS `Number(string)`: trims, empty means `0`, else a signed decimal
literal; `none` models `NaN` (hex/`Infinity` inputs are out of scope). -/
def jsStringToNumber (s : String) : Option Rat :=
  let t := trimChars s.data
  if t = [] then some 0
  else
    match t with
    | '+' :: r => parseUnsignedDec r
    | '-' :: r => (parseUnsignedDec r).map Neg.neg
    | _ => parseUnsignedDec t

/-- JS `Number(v)` on a possibly-`undefined` JSON value; `none` models
`NaN`.  Objects and arrays convert through their string form. -/
def jsToNumber : Option Jval → Option Rat
  | none => none
  | some jnull => some 0
  | some (jbool b) => some (if b then 1 else 0)
  | some (jnum m 0) => some (m : Rat)
  | some (jnum m e) => some ((m : Rat) / (10 : Rat) ^ e)
  | some (jstr s) => jsStringToNumber s
  | some (jarr l) => jsStringToNumber (jsToString (jarr l))
  | some (jobj fs) => jsStringToNumber (jsToString (jobj fs))

/-! ## The grocery application state (`GroceryApp`, `src/src/js/main.js`)

The in-memory state consists of the catalog (`groceryItems`), the Selection
Set (`shoppingSet`) and the Status Set (`uncheckedSet`).  The DOM rendering
and the fire-and-forget persistence calls are side effects that do not feed
back into this state and are not modelled. -/

/-- A catalog item. -/
structure Item where
  id : String
  store : String
  item : String
  price : Rat
deriving DecidableEq

/-- In-memory state of `GroceryApp`. -/
structure AppState where
  groceryItems : List Item
  shoppingSet : Finset String
  uncheckedSet : Finset String
deriving DecidableEq

/-- `GroceryApp.addToShopping`. -/
def addToShopping (itemId : String) (s : AppState) : AppState :=
  if itemId ∈ s.shoppingSet then s
  else
    { s with
      shoppingSet := insert itemId s.shoppingSet
      uncheckedSet := s.uncheckedSet.erase itemId }

/-- `GroceryApp.removeFromShopping`. -/
def removeFromShopping (itemId : String) (s : AppState) : AppState :=
  if itemId ∉ s.shoppingSet then s
  else
    { s with
      shoppingSet := s.shoppingSet.erase itemId
      uncheckedSet := s.uncheckedSet.erase itemId }

/-- `GroceryApp.toggleItem`; `isChecked` is the state of the row's checkbox
after the toggle. -/
def toggleItem (isChecked : Bool) (itemId : String) (s : AppState) : AppState :=
  if isChecked then { s with uncheckedSet := s.uncheckedSet.erase itemId }
  else { s with uncheckedSet := insert itemId s.uncheckedSet }

/-- `GroceryApp.removeItem` (catalog deletion). -/
def removeItem (itemId : String) (s : AppState) : AppState :=
  { groceryItems := s.groceryItems.filter (fun it => decide (it.id ≠ itemId))
    shoppingSet := s.shoppingSet.erase itemId
    uncheckedSet := s.uncheckedSet.erase itemId }

/-- `GroceryApp.clearShoppingList`. -/
def clearShoppingList (s : AppState) : AppState :=
  if s.shoppingSet = ∅ then s
  else { s with shoppingSet := ∅, uncheckedSet := ∅ }

/-- The Status-Set-within-Selection-Set invariant of the spec. -/
def statusWithinSelection (s : AppState) : Prop :=
  s.uncheckedSet ⊆ s.shoppingSet

/-! ## `DataStore` construction (`_validateNamespace`, constructor) -/

/-- A character allowed by the namespace pattern `[a-zA-Z0-9._-]`. -/
def validChar (c : Char) : Bool :=
  c.isAlphanum || c == '.' || c == '_' || c == '-'

/-- `DataStore._validateNamespace`: string check, trimmed-nonempty check,
length check, character-class check, in the order of the source. -/
def validateNamespace : Jval → Except String Unit
  | jstr s =>
      if jsTrim s = "" then .error "Namespace cannot be empty"
      else if 255 < s.length then .error "Namespace cannot exceed 255 characters"
      else if s.data.all validChar then .ok ()
      else .error "Namespace contains invalid characters"
  | _ => .error "Namespace must be a string"

/-- The configuration a successfully constructed `DataStore` holds. -/
structure DSConfig where
  ns : String
  type : String
deriving DecidableEq

/-- The storage types the constructor recognises. -/
def validTypesJ : List Jval := [jstr "local", jstr "sync", jstr "managed", jstr "session"]

/-- The `DataStore` constructor: validates the namespace, then silently
falls back to `'local'` when the `type` argument is not one of the valid
storage types. -/
def dsConstructor (ns ty : Jval) : Except String DSConfig :=
  match validateNamespace ns with
  | .error e => .error e
  | .ok _ =>
      .ok
        { ns := match ns with | jstr s => s | _ => ""
          type :=
            if ty ∈ validTypesJ then match ty with | jstr s => s | _ => "local"
            else "local" }

/-- `DataStore.get` on the chrome path (the stored value, or the default
when the namespace holds nothing); the state is the value stored under the
instance's namespace, `none` when absent. -/
def dsGet (defVal : Option Jval) (st : Option Jval) : Option Jval :=
  match st with
  | some v => some v
  | none => defVal

/-! ## The catalog import merger (`GroceryApp.handleImportFile`) -/

/-- Conversion to a Lean list. -/
def JArr.toList : JArr → List Jval
  | .nil => []
  | .cons x tl => x :: JArr.toList tl

/-- Conversion to a Lean association list. -/
def JObj.toList : JObj → List (String × Jval)
  | .nil => []
  | .cons k v tl => (k, v) :: JObj.toList tl

/-- The deduplication key of a stored catalog item, as computed for the
`existingKeySet`. -/
def itemKey (it : Item) : String :=
  jsLower (jsTrim it.store) ++ "|" ++ jsLower (jsTrim it.item)

/-- `raw?.store ?? raw?.Store ?? raw?.STORE`. -/
def recStore (raw : Jval) : Option Jval :=
  jsCoalesce (propGet raw "store") (jsCoalesce (propGet raw "Store") (propGet raw "STORE"))

/-- `raw?.item ?? raw?.name ?? raw?.Item ?? raw?.ITEM`. -/
def recName (raw : Jval) : Option Jval :=
  jsCoalesce (propGet raw "item") (jsCoalesce (propGet raw "name")
    (jsCoalesce (propGet raw "Item") (propGet raw "ITEM")))

/-- `raw?.price ?? raw?.Price ?? raw?.PRICE`. -/
def recPriceRaw (raw : Jval) : Option Jval :=
  jsCoalesce (propGet raw "price") (jsCoalesce (propGet raw "Price") (propGet raw "PRICE"))

/-- The validity test of the import loop: `!store || !name` skips the
record (note: truthiness of the raw values, before any trimming). -/
def recValid (raw : Jval) : Bool :=
  truthyOpt (recStore raw) && truthyOpt (recName raw)

/-- `String(name).trim()` of a record. -/
def recItemStr (raw : Jval) : String := jsTrim (jsToString ((recName raw).getD jnull))

/-- `String(store).trim()` of a record. -/
def recStoreStr (raw : Jval) : String := jsTrim (jsToString ((recStore raw).getD jnull))

/-- The import price: `Number(priceRaw)`, defaulting to `0` when not
finite. -/
def recPrice (raw : Jval) : Rat :=
  match jsToNumber (recPriceRaw raw) with
  | some q => q
  | none => 0

/-- The deduplication key computed for an incoming record. -/
def recKey (raw : Jval) : String :=
  jsLower (recStoreStr raw) ++ "|" ++ jsLower (recItemStr raw)

/-- `raw?.id != null ? String(raw.id) : ''`. -/
def suppliedId (raw : Jval) : String :=
  match propGet raw "id" with
  | some jnull => ""
  | some v => jsToString v
  | none => ""

/-- The in-batch duplicate probe key of an already-accepted item
(`x.store.toLowerCase() + "|" + x.item.toLowerCase()`; the stored fields
are already trimmed). -/
def addKey (x : Item) : String := jsLower x.store ++ "|" ++ jsLower x.item

/-- The id template `item-NOW-COUNTER`. -/
def genId (now c : Nat) : String := "item-" ++ natLit now ++ "-" ++ natLit c

/-- The `do … while` loop of `makeUniqueId`, with enough fuel to find a
free id; returns the id and the updated counter. -/
def makeUniqueIdAux (now : Nat) (ids : Finset String) : Nat → Nat → String × Nat
  | counter, 0 => (genId now counter, counter + 1)
  | counter, fuel + 1 =>
      if genId now counter ∈ ids then makeUniqueIdAux now ids (counter + 1) fuel
      else (genId now counter, counter + 1)

/-- `makeUniqueId`: generate `item-NOW-COUNTER` ids until one avoids
`existingIdSet` (at most `card + 1` candidates are needed). -/
def makeUniqueId (now : Nat) (ids : Finset String) (counter : Nat) : String × Nat :=
  makeUniqueIdAux now ids counter (ids.card + 1)

/-- The accumulating state of the import loop of `handleImportFile`. -/
structure ImportState where
  toAdd : List Item
  skippedInvalid : Nat
  skippedDuplicates : Nat
  counter : Nat
  existingIdSet : Finset String
  existingKeySet : Finset String
deriving DecidableEq

/-- One iteration of the `for (const raw of data)` loop of
`handleImportFile`. -/
def importStep (now : Nat) (s : ImportState) (raw : Jval) : ImportState :=
  if !recValid raw then
    { s with skippedInvalid := s.skippedInvalid + 1 }
  else
    let item := recItemStr raw
    let storeStr := recStoreStr raw
    let price := recPrice raw
    let key := recKey raw
    if key ∈ s.existingKeySet then
      { s with skippedDuplicates := s.skippedDuplicates + 1 }
    else if s.toAdd.any (fun x => addKey x == key) then
      { s with skippedDuplicates := s.skippedDuplicates + 1 }
    else
      let id0 := suppliedId raw
      if id0 = "" ∨ id0 ∈ s.existingIdSet then
        let r := makeUniqueId now s.existingIdSet s.counter
        { s with
          toAdd := s.toAdd ++ [⟨r.1, storeStr, item, price⟩]
          counter := r.2
          existingIdSet := insert r.1 s.existingIdSet
          existingKeySet := insert key s.existingKeySet }
      else
        { s with
          toAdd := s.toAdd ++ [⟨id0, storeStr, item, price⟩]
          existingIdSet := insert id0 s.existingIdSet
          existingKeySet := insert key s.existingKeySet }

/-- The state before the loop: indexes over the existing catalog. -/
def initImportState (existing : List Item) : ImportState :=
  { toAdd := []
    skippedInvalid := 0
    skippedDuplicates := 0
    counter := 0
    existingIdSet := (existing.map Item.id).toFinset
    existingKeySet := (existing.map itemKey).toFinset }

/-- The whole import loop over a parsed array. -/
def runImport (existing : List Item) (now : Nat) (data : List Jval) : ImportState :=
  data.foldl (importStep now) (initImportState existing)

/-- `handleImportFile` after JSON parsing: rejects non-arrays, otherwise
runs the loop.  The merged catalog is `existing ++ (… ).toAdd`. -/
def handleImportData (existing : List Item) (now : Nat) (data : Jval) : Option ImportState :=
  match data with
  | jarr l => some (runImport existing now (JArr.toList l))
  | _ => none

/-! ## `DataStore.merge` and `_deepMerge` -/

/-- The `{...a}` part of `{...a, ...b}`: `a`'s bindings, with `b`'s value
where `b` also binds the key. -/
def overrideO : JObj → JObj → JObj
  | .nil, _ => .nil
  | .cons k v tl, b => .cons k ((lookupO b k).getD v) (overrideO tl b)

/-- Concatenation of bindings. -/
def appendO : JObj → JObj → JObj
  | .nil, b => b
  | .cons k v tl, b => .cons k v (appendO tl b)

/-- The bindings of `b` whose keys `a` does not bind. -/
def filterNewO : JObj → JObj → JObj
  | .nil, _ => .nil
  | .cons k v tl, a =>
      if (lookupO a k).isSome then filterNewO tl a else .cons k v (filterNewO tl a)

/-- The object spread `{...a, ...b}` (shallow merge). -/
def spreadO (a b : JObj) : JObj := appendO (overrideO a b) (filterNewO b a)

/-- `DataStore._deepMerge`: start from a copy of the target and fold the
source bindings in, recursing when both sides bind a plain object. -/
def deepMergeO : JObj → JObj → JObj
  | t, .nil => t
  | t, .cons k sv rest =>
      let t2 := match sv, lookupO t k with
        | jobj so, some (jobj tOb) => setKeyO t k (jobj (deepMergeO tOb so))
        | _, _ => setKeyO t k sv
      deepMergeO t2 rest

/-- The value `_deepMerge` assigns for one source binding: the recursive
merge when both the incoming value and the current one are plain objects,
the incoming value itself otherwise (arrays and primitives replace). -/
def deepAssign (sv : Jval) (old : Option Jval) : Jval :=
  match sv, old with
  | jobj so, some (jobj tOb) => jobj (deepMergeO tOb so)
  | _, _ => sv

/-- `DataStore.merge`: fails unless `newData` is a plain object; loads the
stored value (default `{}`), fails when it is not typeof-`object` (arrays
fail explicitly; note `null` passes the `typeof` test and spreads to `{}`);
merges shallowly or deeply, persists and returns the merged object. -/
def dsMerge (newData : Jval) (deep : Bool) (st : Option Jval) :
    Except String (Jval × Option Jval) :=
  match newData with
  | jobj nf =>
      match (dsGet (some (jobj .nil)) st).getD (jobj .nil) with
      | jobj fs =>
          let merged := jobj (if deep then deepMergeO fs nf else spreadO fs nf)
          .ok (merged, some merged)
      | jnull =>
          let merged := jobj (if deep then deepMergeO .nil nf else spreadO .nil nf)
          .ok (merged, some merged)
      | _ => .error "Cannot merge with non-object data"
  | _ => .error "Data to merge must be a plain object"

/-! ## `DataStore.deleteItem` and `_navigateToPath` -/

/-- The canonical array index denoted by a property key, if any
(`"1"` on an array of length ≥ 2, but not `"01"`). -/
def arrIndexOf (l : JArr) (key : String) : Option Nat :=
  (List.range (lengthA l)).find? (fun i => natLit i == key)

/-- The JS `key in parent` test (own JSON properties; arrays own their
canonical indices and `length`); a TypeError on primitives and `null`. -/
def jsInB (key : String) (v : Jval) : Except String Bool :=
  match v with
  | jobj fs => .ok (lookupO fs key).isSome
  | jarr l => .ok (key == "length" || (arrIndexOf l key).isSome)
  | _ => .error "TypeError"

/-- `parent[key]` (meaningful when `key in parent`). -/
def childOf (v : Jval) (key : String) : Jval :=
  match v with
  | jobj fs => (lookupO fs key).getD jnull
  | jarr l =>
      if key == "length" then jnum (lengthA l) 0
      else getA l ((arrIndexOf l key).getD 0)
  | _ => jnull

/-- Rebuild a container with the child at `key` replaced (the functional
rendering of mutating `parent[key]` in place). -/
def setChildOf (v : Jval) (key : String) (nv : Jval) : Jval :=
  match v with
  | jobj fs => jobj (setKeyO fs key nv)
  | jarr l =>
      match arrIndexOf l key with
      | some i => jarr (setA l i nv)
      | none => jarr l
  | _ => v

/-- `DataStore._navigateToPath` without `create`: walk the leading path
segments and return the parent node.  A `null` node fails, a missing
segment fails, a primitive node fails on the `in` test. -/
def navigate : Jval → List String → Except String Jval
  | data, [] => .ok data
  | data, part :: rest =>
      match data with
      | jnull => .error "Cannot navigate through null"
      | d =>
          match jsInB part d with
          | .error e => .error e
          | .ok false => .error "Path not found"
          | .ok true => navigate (childOf d part) rest

/-- The terminal step of `deleteItem`: `key in parent` failing gives
`none` (JS `return false`); arrays splice at the numeric index (a
non-numeric own key such as `length` is an error); objects delete the
key. -/
def delAtParent (parent : Jval) (key : String) : Except String (Option Jval) :=
  match jsInB key parent with
  | .error e => .error e
  | .ok false => .ok none
  | .ok true =>
      match parent with
      | jarr l =>
          match arrIndexOf l key with
          | some i => .ok (some (jarr (removeA l i)))
          | none => .error "Invalid array index"
      | jobj fs => .ok (some (jobj (removeKeyO fs key)))
      | _ => .ok none

/-- `deleteItem`'s navigation plus the terminal deletion, rebuilding the
root along the walked path (the functional rendering of the in-place
mutation; the JSON data is a tree). -/
def delPath : Jval → List String → String → Except String (Option Jval)
  | data, [], key => delAtParent data key
  | data, part :: rest, key =>
      match data with
      | jnull => .error "Cannot navigate through null"
      | d =>
          match jsInB part d with
          | .error e => .error e
          | .ok false => .error "Path not found"
          | .ok true =>
              match delPath (childOf d part) rest key with
              | .error e => .error e
              | .ok none => .ok none
              | .ok (some child2) => .ok (some (setChildOf d part child2))

/-- `DataStore.deleteItem`: validates the path, loads the data (falsy data
gives `false`), splits the path on dots, pops the terminal key, deletes,
and persists exactly when something was deleted. -/
def dsDeleteItem (path : String) (st : Option Jval) :
    Except String (Bool × Option Jval) :=
  if jsTrim path = "" then .error "Path must be a non-empty string"
  else
    match dsGet none st with
    | none => .ok (false, st)
    | some data =>
        if !jsTruthy data then .ok (false, st)
        else
          let parts := splitOnDots path
          match delPath data parts.dropLast (parts.getLastD "") with
          | .error e => .error e
          | .ok none => .ok (false, st)
          | .ok (some data2) => .ok (true, some data2)

/-! ## JSON text: `JSON.stringify` and `JSON.parse`

The web storage path of `DataStore` persists `JSON.stringify(value)` and
reads back with `JSON.parse`.  These built-ins are modelled by a concrete
printer and recursive-descent parser over `Jval`; the parser needs only to
be a left inverse of the printer on the strings the store writes (it
accepts the printed sublanguage; JSON exponent literals, which the printer
never emits, are not parsed). -/

/-- String escaping of `JSON.stringify`: quote, backslash, the short
control escapes, and `\u00XX` for the remaining control characters. -/
def escChar (c : Char) : List Char :=
  if c = '"' then ['\\', '"']
  else if c = '\\' then ['\\', '\\']
  else if c = '\n' then ['\\', 'n']
  else if c = '\r' then ['\\', 'r']
  else if c = '\t' then ['\\', 't']
  else if c = '\x08' then ['\\', 'b']
  else if c = '\x0c' then ['\\', 'f']
  else if c.toNat < 32 then
    ['\\', 'u', '0', '0', Nat.digitChar (c.toNat / 16), Nat.digitChar (c.toNat % 16)]
  else [c]

/-- Escape a whole string body. -/
def escBody : List Char → List Char
  | [] => []
  | c :: cs => escChar c ++ escBody cs

/-- A JSON string token. -/
def strChars (s : String) : List Char := '"' :: escBody s.data ++ ['"']

mutual

/-- The characters `JSON.stringify` produces for a value. -/
def printJ : Jval → List Char
  | jnull => ['n', 'u', 'l', 'l']
  | jbool true => ['t', 'r', 'u', 'e']
  | jbool false => ['f', 'a', 'l', 's', 'e']
  | jnum m e => numChars m e
  | jstr s => strChars s
  | jarr l => '[' :: printArr l ++ [']']
  | jobj fs => '{' :: printObj fs ++ ['}']

/-- Array elements, comma separated. -/
def printArr : JArr → List Char
  | .nil => []
  | .cons x .nil => printJ x
  | .cons x tl => printJ x ++ ',' :: printArr tl

/-- Object members, comma separated. -/
def printObj : JObj → List Char
  | .nil => []
  | .cons k v .nil => strChars k ++ ':' :: printJ v
  | .cons k v tl => strChars k ++ ':' :: printJ v ++ ',' :: printObj tl

end

/-- `JSON.stringify`. -/
def stringify (v : Jval) : String := ⟨printJ v⟩

/-- Hexadecimal digit value. -/
def hexVal (c : Char) : Option Nat :=
  if c.isDigit then some (c.toNat - 48)
  else if 'a' ≤ c && c ≤ 'f' then some (c.toNat - 87)
  else if 'A' ≤ c && c ≤ 'F' then some (c.toNat - 55)
  else none

/-- Parse a string body after the opening quote, handling the escapes;
returns the content and the characters after the closing quote. -/
def parseStrBody : List Char → Option (List Char × List Char)
  | [] => none
  | '"' :: rest => some ([], rest)
  | ['\\'] => none
  | '\\' :: e :: rest =>
      match e with
      | '"' => (parseStrBody rest).map (fun p => ('"' :: p.1, p.2))
      | '\\' => (parseStrBody rest).map (fun p => ('\\' :: p.1, p.2))
      | '/' => (parseStrBody rest).map (fun p => ('/' :: p.1, p.2))
      | 'n' => (parseStrBody rest).map (fun p => ('\n' :: p.1, p.2))
      | 'r' => (parseStrBody rest).map (fun p => ('\r' :: p.1, p.2))
      | 't' => (parseStrBody rest).map (fun p => ('\t' :: p.1, p.2))
      | 'b' => (parseStrBody rest).map (fun p => ('\x08' :: p.1, p.2))
      | 'f' => (parseStrBody rest).map (fun p => ('\x0c' :: p.1, p.2))
      | 'u' =>
          match rest with
          | h1 :: h2 :: h3 :: h4 :: rest2 =>
              match hexVal h1, hexVal h2, hexVal h3, hexVal h4 with
              | some a, some b, some c, some d =>
                  (parseStrBody rest2).map
                    (fun p => (Char.ofNat (((a * 16 + b) * 16 + c) * 16 + d) :: p.1, p.2))
              | _, _, _, _ => none
          | _ => none
      | _ => none
  | c :: rest => (parseStrBody rest).map (fun p => (c :: p.1, p.2))

/-- Parse an unsigned decimal number token: digits, optionally a dot and
fraction digits; returns mantissa and fraction length. -/
def parseNumUnsigned (cs : List Char) : Option ((Nat × Nat) × List Char) :=
  let ip := cs.takeWhile Char.isDigit
  let r1 := cs.dropWhile Char.isDigit
  if ip = [] then none
  else
    match r1 with
    | '.' :: r2 =>
        let fp := r2.takeWhile Char.isDigit
        let r3 := r2.dropWhile Char.isDigit
        if fp = [] then none
        else some ((digitsVal (ip ++ fp), fp.length), r3)
    | _ => some ((digitsVal ip, 0), r1)

/-- Parse a signed decimal number token. -/
def parseNum (cs : List Char) : Option ((Int × Nat) × List Char) :=
  match cs with
  | '-' :: r =>
      match parseNumUnsigned r with
      | some ((n, e), rest) => some ((-(n : Int), e), rest)
      | none => none
  | _ =>
      match parseNumUnsigned cs with
      | some ((n, e), rest) => some (((n : Int), e), rest)
      | none => none

mutual

/-- Recursive-descent JSON value parser (fuelled; the fuel bounds the
nesting of arrays and objects). -/
def parseVal : Nat → List Char → Option (Jval × List Char)
  | 0, _ => none
  | _ + 1, [] => none
  | fuel + 1, c :: cs =>
      if c = 'n' then
        match cs with
        | 'u' :: 'l' :: 'l' :: rest => some (jnull, rest)
        | _ => none
      else if c = 't' then
        match cs with
        | 'r' :: 'u' :: 'e' :: rest => some (jbool true, rest)
        | _ => none
      else if c = 'f' then
        match cs with
        | 'a' :: 'l' :: 's' :: 'e' :: rest => some (jbool false, rest)
        | _ => none
      else if c = '"' then
        match parseStrBody cs with
        | some (b, rest) => some (jstr ⟨b⟩, rest)
        | none => none
      else if c = '[' then
        match cs with
        | ']' :: rest => some (jarr .nil, rest)
        | _ =>
            match parseElems fuel cs with
            | some (l, rest) => some (jarr l, rest)
            | none => none
      else if c = '{' then
        match cs with
        | '}' :: rest => some (jobj .nil, rest)
        | _ =>
            match parseFields fuel cs with
            | some (fs, rest) => some (jobj fs, rest)
            | none => none
      else
        match parseNum (c :: cs) with
        | some ((m, e), rest) => some (jnum m e, rest)
        | none => none

/-- Elements of a nonempty array, up to and including the closing
bracket. -/
def parseElems : Nat → List Char → Option (JArr × List Char)
  | 0, _ => none
  | fuel + 1, cs =>
      match parseVal fuel cs with
      | some (v, ',' :: rest) =>
          match parseElems fuel rest with
          | some (l, rest2) => some (.cons v l, rest2)
          | none => none
      | some (v, ']' :: rest) => some (.cons v .nil, rest)
      | _ => none

/-- Members of a nonempty object, up to and including the closing
brace. -/
def parseFields : Nat → List Char → Option (JObj × List Char)
  | 0, _ => none
  | fuel + 1, cs =>
      match cs with
      | '"' :: cs1 =>
          match parseStrBody cs1 with
          | some (k, ':' :: cs2) =>
              match parseVal fuel cs2 with
              | some (v, ',' :: cs3) =>
                  match parseFields fuel cs3 with
                  | some (fs, rest) => some (.cons ⟨k⟩ v fs, rest)
                  | none => none
              | some (v, '}' :: cs3) => some (.cons ⟨k⟩ v .nil, cs3)
              | _ => none
          | _ => none
      | _ => none

end

/-- `JSON.parse` (on the printed sublanguage): parse one value consuming
the whole text. -/
def parseJSON (s : String) : Option Jval :=
  match parseVal (s.data.length + 1) s.data with
  | some (v, []) => some v
  | _ => none

/-- `DataStore.get` on the web storage path: absent gives the default, a
stored payload is parsed, a parse failure is treated as absent.  The state
is the string stored under the namespace, `none` when absent. -/
def webGet (defVal : Option Jval) (st : Option String) : Option Jval :=
  match st with
  | none => defVal
  | some item =>
      match parseJSON item with
      | some v => some v
      | none => defVal

/-- `DataStore.set` on the web storage path: serialize and store. -/
def webSet (value : Jval) (_st : Option String) : Option String :=
  some (stringify value)

mutual

/-- Structural size of a value (bounds the parser fuel). -/
def sizeJ : Jval → Nat
  | jnull => 1
  | jbool _ => 1
  | jnum _ _ => 1
  | jstr _ => 1
  | jarr l => sizeA l + 1
  | jobj fs => sizeO fs + 1

/-- Structural size of array elements. -/
def sizeA : JArr → Nat
  | .nil => 0
  | .cons x tl => sizeJ x + sizeA tl + 1

/-- Structural size of object members. -/
def sizeO : JObj → Nat
  | .nil => 0
  | .cons _ v tl => sizeJ v + sizeO tl + 1

end

/-! ## JSON round trip: the parser is a left inverse of the printer -/

/-- Characters that may legally follow a printed value inside a JSON
text: end of input, a comma, or a closing bracket. -/
def boundaryOk : List Char → Bool
  | [] => true
  | c :: _ => c == ',' || c == ']' || c == '}'

theorem boundary_spec {rest : List Char} (hb : boundaryOk rest = true) :
    ∀ y, rest.head? = some y → (y.isDigit = false ∧ y ≠ '.' ∧ y ≠ '-') := by
  cases rest with
  | nil => intro y hy; simp at hy
  | cons c t =>
      intro y hy
      simp at hy
      subst hy
      simp [boundaryOk] at hb
      rcases hb with (h | h) | h <;> subst h <;> exact ⟨by decide, by decide, by decide⟩

theorem takeWhile_stop {p : Char → Bool} {ys : List Char}
    (h : ∀ y, ys.head? = some y → p y = false) :
    ys.takeWhile p = [] ∧ ys.dropWhile p = ys := by
  cases ys with
  | nil => exact ⟨rfl, rfl⟩
  | cons y t =>
      have hy := h y rfl
      exact ⟨by simp [List.takeWhile_cons, hy], by simp [List.dropWhile_cons, hy]⟩

theorem digitsVal_replicate_zero (k : Nat) (cs : List Char) :
    digitsVal (List.replicate k '0' ++ cs) = digitsVal cs := by
  induction k with
  | zero => rfl
  | succ n ih =>
      rw [List.replicate_succ, List.cons_append]
      show List.foldl _ _ _ = _
      simp only [List.foldl_cons]
      exact ih

theorem natLitChars_head (n : Nat) :
    ∃ c t, natLitChars n = c :: t ∧ c.isDigit = true := by
  cases hc : natLitChars n with
  | nil => exact absurd hc (natLitChars_ne_nil n)
  | cons c t =>
      exact ⟨c, t, rfl, natLitChars_all_digits n c (by rw [hc]; simp)⟩

theorem parseNumUnsigned_natLit (n : Nat) (rest : List Char)
    (hb : boundaryOk rest = true) :
    parseNumUnsigned (natLitChars n ++ rest) = some ((n, 0), rest) := by
  have hall : ∀ c ∈ natLitChars n, Char.isDigit c = true := natLitChars_all_digits n
  have hstop := takeWhile_stop (p := Char.isDigit) (fun y hy => (boundary_spec hb y hy).1)
  unfold parseNumUnsigned
  rw [List.takeWhile_append_of_pos hall, List.dropWhile_append_of_pos hall,
      hstop.1, hstop.2, List.append_nil]
  rw [if_neg (natLitChars_ne_nil n)]
  cases rest with
  | nil => simp [digitsVal_natLitChars]
  | cons y t =>
      have hy := (boundary_spec hb y rfl).2.1
      split
      · next r2 heq =>
          exfalso
          injection heq with h1 _
          exact hy h1
      · simp [digitsVal_natLitChars]

/-- The unsigned body of `numChars`. -/
def unsChars (n : Nat) (e : Nat) : List Char :=
  if e = 0 then natLitChars n
  else
    let pad := List.replicate (e + 1 - (natLitChars n).length) '0' ++ natLitChars n
    pad.take (pad.length - e) ++ '.' :: pad.drop (pad.length - e)

theorem numChars_eq (m : Int) (e : Nat) :
    numChars m e = (if m < 0 then ['-'] else []) ++ unsChars m.natAbs e := by
  unfold numChars unsChars
  by_cases he : e = 0 <;> by_cases hm : m < 0 <;> simp [he, hm]

theorem replicate_pad_digits (k n : Nat) :
    ∀ c ∈ List.replicate k '0' ++ natLitChars n, c.isDigit = true := by
  intro c hc
  rcases List.mem_append.mp hc with h | h
  · rw [List.eq_of_mem_replicate h]; decide
  · exact natLitChars_all_digits n c h

theorem unsChars_parse (n e : Nat) (rest : List Char) (hb : boundaryOk rest = true) :
    parseNumUnsigned (unsChars n e ++ rest) = some ((n, e), rest) := by
  by_cases he : e = 0
  · subst he
    rw [show unsChars n 0 = natLitChars n from by simp [unsChars]]
    exact parseNumUnsigned_natLit n rest hb
  · have hpadlen : e + 1 ≤ (List.replicate (e + 1 - (natLitChars n).length) '0'
        ++ natLitChars n).length := by
      simp [List.length_append, List.length_replicate]
      omega
    have hshape : unsChars n e ++ rest =
        (List.replicate (e + 1 - (natLitChars n).length) '0' ++ natLitChars n).take
            ((List.replicate (e + 1 - (natLitChars n).length) '0'
              ++ natLitChars n).length - e) ++
          '.' :: ((List.replicate (e + 1 - (natLitChars n).length) '0'
              ++ natLitChars n).drop
            ((List.replicate (e + 1 - (natLitChars n).length) '0'
              ++ natLitChars n).length - e) ++ rest) := by
      simp [unsChars, he, List.append_assoc]
    set pad : List Char :=
      List.replicate (e + 1 - (natLitChars n).length) '0' ++ natLitChars n with hpad
    set ip := pad.take (pad.length - e) with hipdef
    set fp := pad.drop (pad.length - e) with hfpdef
    have hipd : ∀ c ∈ ip, c.isDigit = true := fun c hc =>
      replicate_pad_digits _ n c (List.mem_of_mem_take hc)
    have hfpd : ∀ c ∈ fp, c.isDigit = true := fun c hc =>
      replicate_pad_digits _ n c (List.mem_of_mem_drop hc)
    have hiplen : ip.length = pad.length - e := by
      rw [hipdef, List.length_take]
      omega
    have hfplen : fp.length = e := by
      rw [hfpdef, List.length_drop]
      omega
    have hipne : ip ≠ [] := by
      intro h
      have := congrArg List.length h
      rw [hiplen] at this
      simp at this
      omega
    have hfpne : fp ≠ [] := by
      intro h
      have := congrArg List.length h
      rw [hfplen] at this
      simp at this
      omega
    have hstop := takeWhile_stop (p := Char.isDigit) (fun y hy => (boundary_spec hb y hy).1)
    rw [hshape]
    unfold parseNumUnsigned
    rw [List.takeWhile_append_of_pos hipd, List.dropWhile_append_of_pos hipd,
        show List.takeWhile Char.isDigit ('.' :: (fp ++ rest)) = [] from by simp,
        show List.dropWhile Char.isDigit ('.' :: (fp ++ rest)) = '.' :: (fp ++ rest) from by
          simp,
        List.append_nil, if_neg hipne]
    show (let fp2 := List.takeWhile Char.isDigit (fp ++ rest)
          let r3 := List.dropWhile Char.isDigit (fp ++ rest)
          if fp2 = [] then none
          else some ((digitsVal (ip ++ fp2), fp2.length), r3)) = _
    rw [show List.takeWhile Char.isDigit (fp ++ rest) = fp from by
          rw [List.takeWhile_append_of_pos hfpd, hstop.1, List.append_nil],
        show List.dropWhile Char.isDigit (fp ++ rest) = rest from by
          rw [List.dropWhile_append_of_pos hfpd, hstop.2]]
    show (if fp = [] then none else some ((digitsVal (ip ++ fp), fp.length), rest)) = _
    rw [if_neg hfpne, hfplen,
        show ip ++ fp = pad from List.take_append_drop _ _,
        hpad, digitsVal_replicate_zero, digitsVal_natLitChars]

theorem unsChars_head (n e : Nat) :
    ∃ c t, unsChars n e = c :: t ∧ c.isDigit = true := by
  by_cases he : e = 0
  · subst he
    simpa [unsChars] using natLitChars_head n
  · have hpadlen : e + 1 ≤ (List.replicate (e + 1 - (natLitChars n).length) '0'
        ++ natLitChars n).length := by
      simp [List.length_append, List.length_replicate]
      omega
    set pad : List Char :=
      List.replicate (e + 1 - (natLitChars n).length) '0' ++ natLitChars n with hpad
    have hip : unsChars n e = pad.take (pad.length - e) ++ '.' :: pad.drop (pad.length - e) := by
      simp [unsChars, he, hpad]
    cases hc : pad.take (pad.length - e) with
    | nil =>
        exfalso
        have := congrArg List.length hc
        rw [List.length_take] at this
        simp at this
        omega
    | cons c t =>
        refine ⟨c, t ++ '.' :: pad.drop (pad.length - e), ?_, ?_⟩
        · rw [hip, hc]
          simp
        · have hcmem : c ∈ pad := List.mem_of_mem_take (l := pad) (by rw [hc]; simp)
          exact replicate_pad_digits _ n c hcmem

theorem numChars_head (m : Int) (e : Nat) :
    ∃ c t, numChars m e = c :: t ∧ (c = '-' ∨ c.isDigit = true) := by
  rw [numChars_eq]
  by_cases hm : m < 0
  · exact ⟨'-', unsChars m.natAbs e, by simp [hm], Or.inl rfl⟩
  · obtain ⟨c, t, hc, hcd⟩ := unsChars_head m.natAbs e
    exact ⟨c, t, by simp [hm, hc], Or.inr hcd⟩

theorem numHead_sep {c : Char} (h : c = '-' ∨ c.isDigit = true) :
    c ≠ 'n' ∧ c ≠ 't' ∧ c ≠ 'f' ∧ c ≠ '"' ∧ c ≠ '[' ∧ c ≠ '{' ∧ c ≠ ']' ∧ c ≠ '}' := by
  rcases h with rfl | h
  · exact ⟨by decide, by decide, by decide, by decide, by decide, by decide,
      by decide, by decide⟩
  · refine ⟨?_, ?_, ?_, ?_, ?_, ?_, ?_, ?_⟩ <;>
      (intro heq; rw [heq] at h; exact absurd h (by decide))

theorem parseNum_numChars (m : Int) (e : Nat) (rest : List Char)
    (hb : boundaryOk rest = true) :
    parseNum (numChars m e ++ rest) = some ((m, e), rest) := by
  rw [numChars_eq]
  by_cases hm : m < 0
  · rw [if_pos hm,
        show (['-'] ++ unsChars m.natAbs e) ++ rest = '-' :: (unsChars m.natAbs e ++ rest)
          from by simp,
        parseNum.eq_1, unsChars_parse _ _ _ hb]
    show some ((-(m.natAbs : Int), e), rest) = some ((m, e), rest)
    have hmn : -(m.natAbs : Int) = m := by omega
    rw [hmn]
  · rw [if_neg hm, List.nil_append]
    obtain ⟨c, t, hc, hcd⟩ := unsChars_head m.natAbs e
    have hne : ∀ r, unsChars m.natAbs e ++ rest = '-' :: r → False := by
      intro r hr
      rw [hc, List.cons_append] at hr
      injection hr with h1 _
      rw [h1] at hcd
      exact absurd hcd (by decide)
    rw [parseNum.eq_2 _ hne, unsChars_parse _ _ _ hb]
    show some (((m.natAbs : Int), e), rest) = some ((m, e), rest)
    have hmn : (m.natAbs : Int) = m := by omega
    rw [hmn]

theorem hexVal_digitChar : ∀ d : Nat, d < 16 → hexVal (Nat.digitChar d) = some d := by
  decide

theorem parseStrBody_u {h1 h2 h3 h4 : Char} {a b c d : Nat} (rest2 : List Char)
    (e1 : hexVal h1 = some a) (e2 : hexVal h2 = some b)
    (e3 : hexVal h3 = some c) (e4 : hexVal h4 = some d) :
    parseStrBody ('\\' :: 'u' :: h1 :: h2 :: h3 :: h4 :: rest2) =
      Option.map (fun p => (Char.ofNat (((a * 16 + b) * 16 + c) * 16 + d) :: p.1, p.2))
        (parseStrBody rest2) := by
  rw [parseStrBody.eq_12, e1, e2, e3, e4]

theorem parseStrBody_escBody (cs rest : List Char) :
    parseStrBody (escBody cs ++ '"' :: rest) = some (cs, rest) := by
  induction cs with
  | nil => rfl
  | cons c cs ih =>
      show parseStrBody (escChar c ++ escBody cs ++ '"' :: rest) = some (c :: cs, rest)
      rw [List.append_assoc]
      by_cases h1 : c = '"'
      · subst h1
        rw [show escChar '"' = ['\\', '"'] from rfl, List.cons_append, List.cons_append,
          List.nil_append, parseStrBody.eq_4, ih]
        rfl
      by_cases h2 : c = '\\'
      · subst h2
        rw [show escChar '\\' = ['\\', '\\'] from by simp [escChar], List.cons_append,
          List.cons_append, List.nil_append, parseStrBody.eq_5, ih]
        rfl
      by_cases h3 : c = '\n'
      · subst h3
        rw [show escChar '\n' = ['\\', 'n'] from by simp [escChar], List.cons_append,
          List.cons_append, List.nil_append, parseStrBody.eq_7, ih]
        rfl
      by_cases h4 : c = '\r'
      · subst h4
        rw [show escChar '\r' = ['\\', 'r'] from by simp [escChar], List.cons_append,
          List.cons_append, List.nil_append, parseStrBody.eq_8, ih]
        rfl
      by_cases h5 : c = '\t'
      · subst h5
        rw [show escChar '\t' = ['\\', 't'] from by simp [escChar], List.cons_append,
          List.cons_append, List.nil_append, parseStrBody.eq_9, ih]
        rfl
      by_cases h6 : c = '\x08'
      · subst h6
        rw [show escChar '\x08' = ['\\', 'b'] from by simp [escChar], List.cons_append,
          List.cons_append, List.nil_append, parseStrBody.eq_10, ih]
        rfl
      by_cases h7 : c = '\x0c'
      · subst h7
        rw [show escChar '\x0c' = ['\\', 'f'] from by simp [escChar], List.cons_append,
          List.cons_append, List.nil_append, parseStrBody.eq_11, ih]
        rfl
      by_cases h8 : c.toNat < 32
      · rw [show escChar c = ['\\', 'u', '0', '0', Nat.digitChar (c.toNat / 16),
            Nat.digitChar (c.toNat % 16)] from by
          unfold escChar
          rw [if_neg h1, if_neg h2, if_neg h3, if_neg h4, if_neg h5, if_neg h6,
              if_neg h7, if_pos h8]]
        simp only [List.cons_append, List.nil_append]
        rw [parseStrBody_u _ (show hexVal '0' = some 0 from rfl)
            (show hexVal '0' = some 0 from rfl)
            (hexVal_digitChar _ (by omega))
            (hexVal_digitChar _ (Nat.mod_lt _ (by norm_num))), ih]
        have hval : ((0 * 16 + 0) * 16 + c.toNat / 16) * 16 + c.toNat % 16 = c.toNat := by
          omega
        simp only [hval, Char.ofNat_toNat]
        rfl
      · rw [show escChar c = [c] from by
          unfold escChar
          rw [if_neg h1, if_neg h2, if_neg h3, if_neg h4, if_neg h5, if_neg h6,
              if_neg h7, if_neg h8],
          List.cons_append, List.nil_append,
          parseStrBody.eq_15 c _ (fun hq => h1 hq) (fun hq _ => h2 hq)
            (fun e r hq _ => h2 hq), ih]
        rfl

/-! Unfolding lemmas for `parseVal` at each possible head character. -/

theorem parseVal_quote (fuel : Nat) (cs : List Char) :
    parseVal (fuel+1) ('"' :: cs) =
      match parseStrBody cs with
      | some (b, r) => some (jstr ⟨b⟩, r)
      | none => none := rfl

theorem parseVal_lbrack_cons (fuel : Nat) (c : Char) (u : List Char) (hc : c ≠ ']') :
    parseVal (fuel+1) ('[' :: c :: u) =
      match parseElems fuel (c :: u) with
      | some (l, rest) => some (jarr l, rest)
      | none => none := by
  show (match (c :: u : List Char) with
        | ']' :: rest => some (jarr .nil, rest)
        | _ =>
            match parseElems fuel (c :: u) with
            | some (l, rest) => some (jarr l, rest)
            | none => none) = _
  split
  · next r heq =>
      exfalso
      injection heq with hh _
      exact hc hh
  · rfl

theorem parseVal_lbrace_cons (fuel : Nat) (u : List Char) :
    parseVal (fuel+1) ('{' :: '"' :: u) =
      match parseFields fuel ('"' :: u) with
      | some (fs, rest) => some (jobj fs, rest)
      | none => none := rfl

theorem parseVal_other (fuel : Nat) (c : Char) (cs : List Char)
    (h1 : c ≠ 'n') (h2 : c ≠ 't') (h3 : c ≠ 'f') (h4 : c ≠ '"')
    (h5 : c ≠ '[') (h6 : c ≠ '{') :
    parseVal (fuel+1) (c :: cs) =
      match parseNum (c :: cs) with
      | some ((m, e), rest) => some (jnum m e, rest)
      | none => none := by
  simp only [parseVal]
  rw [if_neg h1, if_neg h2, if_neg h3, if_neg h4, if_neg h5, if_neg h6]

theorem parseElems_step_last {fuel : Nat} {cs r : List Char} {x : Jval}
    (hx : parseVal fuel cs = some (x, ']' :: r)) :
    parseElems (fuel+1) cs = some (.cons x .nil, r) := by
  simp only [parseElems, hx]

theorem parseElems_step_cons {fuel : Nat} {cs r r2 : List Char} {x : Jval} {l : JArr}
    (hx : parseVal fuel cs = some (x, ',' :: r))
    (hrest : parseElems fuel r = some (l, r2)) :
    parseElems (fuel+1) cs = some (.cons x l, r2) := by
  simp only [parseElems, hx, hrest]

theorem parseFields_step_last {fuel : Nat} {cs1 cs2 cs3 : List Char} {k : List Char}
    {v : Jval}
    (hs : parseStrBody cs1 = some (k, ':' :: cs2))
    (hv : parseVal fuel cs2 = some (v, '}' :: cs3)) :
    parseFields (fuel+1) ('"' :: cs1) = some (.cons ⟨k⟩ v .nil, cs3) := by
  simp only [parseFields, hs, hv]

theorem parseFields_step_cons {fuel : Nat} {cs1 cs2 cs3 rest : List Char} {k : List Char}
    {v : Jval} {fs : JObj}
    (hs : parseStrBody cs1 = some (k, ':' :: cs2))
    (hv : parseVal fuel cs2 = some (v, ',' :: cs3))
    (hrest : parseFields fuel cs3 = some (fs, rest)) :
    parseFields (fuel+1) ('"' :: cs1) = some (.cons ⟨k⟩ v fs, rest) := by
  simp only [parseFields, hs, hv, hrest]

theorem printJ_head (v : Jval) : ∃ c t, printJ v = c :: t ∧ c ≠ ']' ∧ c ≠ '}' := by
  cases v with
  | jnull => exact ⟨'n', _, rfl, by decide, by decide⟩
  | jbool b => cases b with
      | true => exact ⟨'t', _, rfl, by decide, by decide⟩
      | false => exact ⟨'f', _, rfl, by decide, by decide⟩
  | jnum m e =>
      obtain ⟨c, t, hc, hcp⟩ := numChars_head m e
      obtain ⟨-, -, -, -, -, -, hc7, hc8⟩ := numHead_sep hcp
      exact ⟨c, t, by simp [printJ, hc], hc7, hc8⟩
  | jstr s => exact ⟨'"', escBody s.data ++ ['"'], rfl, by decide, by decide⟩
  | jarr l => exact ⟨'[', printArr l ++ [']'], rfl, by decide, by decide⟩
  | jobj fs => exact ⟨'{', printObj fs ++ ['}'], rfl, by decide, by decide⟩

theorem sizeJ_pos (v : Jval) : 0 < sizeJ v := by
  cases v <;> simp [sizeJ]

mutual

theorem sizeJ_le_len : ∀ v : Jval, sizeJ v ≤ (printJ v).length
  | jnull => by simp [sizeJ, printJ]
  | jbool b => by cases b <;> simp [sizeJ, printJ]
  | jnum m e => by
      obtain ⟨c, t, hc, -⟩ := numChars_head m e
      simp [sizeJ, printJ, hc]
  | jstr s => by simp [sizeJ, printJ, strChars]
  | jarr l => by
      have h := sizeA_le_len l
      simp only [sizeJ, printJ, List.length_cons, List.length_append,
        List.length_singleton]
      omega
  | jobj fs => by
      have h := sizeO_le_len fs
      simp only [sizeJ, printJ, List.length_cons, List.length_append,
        List.length_singleton]
      omega

theorem sizeA_le_len : ∀ l : JArr, sizeA l ≤ (printArr l).length + 1
  | .nil => by simp [sizeA, printArr]
  | .cons x .nil => by
      have h := sizeJ_le_len x
      simp only [sizeA, sizeO, printArr]
      omega
  | .cons x (.cons y tl) => by
      have h1 := sizeJ_le_len x
      have h2 := sizeA_le_len (.cons y tl)
      simp only [sizeA, printArr, List.length_append, List.length_cons] at h2 ⊢
      omega

theorem sizeO_le_len : ∀ fs : JObj, sizeO fs ≤ (printObj fs).length + 1
  | .nil => by simp [sizeO, printObj]
  | .cons k v .nil => by
      have h := sizeJ_le_len v
      simp only [sizeO, printObj, List.length_append, List.length_cons]
      omega
  | .cons k v (.cons k2 v2 tl) => by
      have h1 := sizeJ_le_len v
      have h2 := sizeO_le_len (.cons k2 v2 tl)
      simp only [sizeO, printObj, List.length_append, List.length_cons] at h2 ⊢
      omega

end

theorem parse_print : ∀ fuel : Nat,
    (∀ (v : Jval) (rest : List Char), sizeJ v ≤ fuel → boundaryOk rest = true →
      parseVal fuel (printJ v ++ rest) = some (v, rest)) ∧
    (∀ (l : JArr) (rest : List Char), l ≠ .nil → sizeA l ≤ fuel →
      parseElems fuel (printArr l ++ ']' :: rest) = some (l, rest)) ∧
    (∀ (fs : JObj) (rest : List Char), fs ≠ .nil → sizeO fs ≤ fuel →
      parseFields fuel (printObj fs ++ '}' :: rest) = some (fs, rest)) := by
  intro fuel
  induction fuel with
  | zero =>
      refine ⟨?_, ?_, ?_⟩
      · intro v rest hsz _
        exact absurd hsz (by have := sizeJ_pos v; omega)
      · intro l rest hne hsz
        cases l with
        | nil => exact absurd rfl hne
        | cons x tl => simp [sizeA] at hsz
      · intro fs rest hne hsz
        cases fs with
        | nil => exact absurd rfl hne
        | cons k v tl => simp [sizeO] at hsz
  | succ fuel ih =>
      obtain ⟨ihV, ihE, ihF⟩ := ih
      refine ⟨?_, ?_, ?_⟩
      · intro v rest hsz hb
        cases v with
        | jnull => rfl
        | jbool b => cases b <;> rfl
        | jnum m e =>
            obtain ⟨c, t, hc, hcp⟩ := numChars_head m e
            obtain ⟨hn1, hn2, hn3, hn4, hn5, hn6, -, -⟩ := numHead_sep hcp
            rw [show printJ (jnum m e) ++ rest = c :: (t ++ rest) from by simp [printJ, hc],
                parseVal_other fuel c (t ++ rest) hn1 hn2 hn3 hn4 hn5 hn6,
                show c :: (t ++ rest) = numChars m e ++ rest from by simp [hc],
                parseNum_numChars m e rest hb]
        | jstr s =>
            rw [show printJ (jstr s) ++ rest = '"' :: (escBody s.data ++ '"' :: rest) from by
                  simp [printJ, strChars],
                parseVal_quote, parseStrBody_escBody]
        | jarr l =>
            cases l with
            | nil => rfl
            | cons x tl =>
                have hszA : sizeA (JArr.cons x tl) ≤ fuel := by
                  simp only [sizeJ] at hsz
                  omega
                have hE := ihE (JArr.cons x tl) rest (by intro h; exact JArr.noConfusion h)
                  hszA
                obtain ⟨c, t, hc, hc1, hc2⟩ := printJ_head x
                have hpa : ∃ u, printArr (JArr.cons x tl) = c :: u := by
                  cases tl with
                  | nil => exact ⟨t, by simp [printArr, hc]⟩
                  | cons y tl2 =>
                      exact ⟨t ++ ',' :: printArr (JArr.cons y tl2), by
                        simp [printArr, hc]⟩
                obtain ⟨u, hu⟩ := hpa
                rw [show printJ (jarr (JArr.cons x tl)) ++ rest =
                      '[' :: c :: (u ++ ']' :: rest) from by simp [printJ, hu],
                    parseVal_lbrack_cons fuel c _ hc1,
                    show c :: (u ++ ']' :: rest) = printArr (JArr.cons x tl) ++ ']' :: rest
                      from by simp [hu],
                    hE]
        | jobj fs =>
            cases fs with
            | nil => rfl
            | cons k v tl =>
                have hszO : sizeO (JObj.cons k v tl) ≤ fuel := by
                  simp only [sizeJ] at hsz
                  omega
                have hF := ihF (JObj.cons k v tl) rest (by intro h; exact JObj.noConfusion h)
                  hszO
                have hpo : ∃ u, printObj (JObj.cons k v tl) = '"' :: u := by
                  cases tl with
                  | nil =>
                      exact ⟨escBody k.data ++ '"' :: ':' :: printJ v, by
                        simp [printObj, strChars]⟩
                  | cons k2 v2 tl2 =>
                      exact ⟨escBody k.data ++ '"' :: ':' ::
                          (printJ v ++ ',' :: printObj (JObj.cons k2 v2 tl2)), by
                        simp [printObj, strChars]⟩
                obtain ⟨u, hu⟩ := hpo
                rw [show printJ (jobj (JObj.cons k v tl)) ++ rest =
                      '{' :: '"' :: (u ++ '}' :: rest) from by simp [printJ, hu],
                    parseVal_lbrace_cons,
                    show '"' :: (u ++ '}' :: rest) =
                        printObj (JObj.cons k v tl) ++ '}' :: rest from by simp [hu],
                    hF]
      · intro l rest hne hsz
        cases l with
        | nil => exact absurd rfl hne
        | cons x tl =>
            have hx : sizeJ x ≤ fuel := by
              simp only [sizeA] at hsz
              omega
            cases tl with
            | nil =>
                have hpv := ihV x (']' :: rest) hx rfl
                rw [show printArr (JArr.cons x .nil) ++ ']' :: rest =
                      printJ x ++ ']' :: rest from by simp [printArr]]
                exact parseElems_step_last hpv
            | cons y tl2 =>
                have hy : sizeA (JArr.cons y tl2) ≤ fuel := by
                  simp only [sizeA] at hsz ⊢
                  omega
                have hpv := ihV x (',' :: (printArr (JArr.cons y tl2) ++ ']' :: rest)) hx rfl
                have hpe := ihE (JArr.cons y tl2) rest (by intro h; exact JArr.noConfusion h)
                  hy
                rw [show printArr (JArr.cons x (JArr.cons y tl2)) ++ ']' :: rest =
                      printJ x ++ (',' :: (printArr (JArr.cons y tl2) ++ ']' :: rest))
                      from by simp [printArr]]
                exact parseElems_step_cons hpv hpe
      · intro fs rest hne hsz
        cases fs with
        | nil => exact absurd rfl hne
        | cons k v tl =>
            have hv : sizeJ v ≤ fuel := by
              simp only [sizeO] at hsz
              omega
            cases tl with
            | nil =>
                have hpv := ihV v ('}' :: rest) hv rfl
                have hps := parseStrBody_escBody k.data (':' :: (printJ v ++ '}' :: rest))
                rw [show printObj (JObj.cons k v .nil) ++ '}' :: rest =
                      '"' :: (escBody k.data ++ '"' :: (':' :: (printJ v ++ '}' :: rest)))
                      from by simp [printObj, strChars]]
                exact parseFields_step_last hps hpv
            | cons k2 v2 tl2 =>
                have htl : sizeO (JObj.cons k2 v2 tl2) ≤ fuel := by
                  simp only [sizeO] at hsz ⊢
                  omega
                have hpv := ihV v
                  (',' :: (printObj (JObj.cons k2 v2 tl2) ++ '}' :: rest)) hv rfl
                have hps := parseStrBody_escBody k.data
                  (':' :: (printJ v ++ ',' :: (printObj (JObj.cons k2 v2 tl2) ++ '}' :: rest)))
                have hpf := ihF (JObj.cons k2 v2 tl2) rest
                  (by intro h; exact JObj.noConfusion h) htl
                rw [show printObj (JObj.cons k v (JObj.cons k2 v2 tl2)) ++ '}' :: rest =
                      '"' :: (escBody k.data ++ '"' :: (':' :: (printJ v ++
                        ',' :: (printObj (JObj.cons k2 v2 tl2) ++ '}' :: rest))))
                      from by simp [printObj, strChars]]
                exact parseFields_step_cons hps hpv hpf

theorem parseJSON_stringify (v : Jval) : parseJSON (stringify v) = some v := by
  have h := (parse_print ((printJ v).length + 1)).1 v []
    (by have := sizeJ_le_len v; omega) rfl
  rw [List.append_nil] at h
  show (match parseVal ((printJ v).length + 1) (printJ v) with
        | some (w, []) => some w
        | _ => none) = some v
  rw [h]


/-! # Claim theorems -/

/-! ## C8: the Status Set stays within the Selection Set -/

/-- Claim C8: in every state where the Status Set (unchecked ids) is a
subset of the Selection Set (shopping ids), each mutating operation —
adding to the shopping selection, removing from it, toggling the checked
status of a selected item, deleting a catalog item, clearing the shopping
list — preserves that inclusion; and removing an id from the selection or
deleting the item cascade-removes the id from the Status Set. -/
theorem c8_statusSubsetPreserved (s : AppState)
    (h : statusWithinSelection s) (itemId : String) (isChecked : Bool) :
    statusWithinSelection (addToShopping itemId s) ∧
    statusWithinSelection (removeFromShopping itemId s) ∧
    (itemId ∈ s.shoppingSet → statusWithinSelection (toggleItem isChecked itemId s)) ∧
    statusWithinSelection (removeItem itemId s) ∧
    statusWithinSelection (clearShoppingList s) ∧
    itemId ∉ (removeFromShopping itemId s).uncheckedSet ∧
    itemId ∉ (removeItem itemId s).uncheckedSet := by
  unfold statusWithinSelection at h
  refine ⟨?_, ?_, ?_, ?_, ?_, ?_, ?_⟩
  · unfold statusWithinSelection addToShopping
    split
    · exact h
    · intro x hx
      exact Finset.mem_insert_of_mem (h (Finset.mem_of_mem_erase hx))
  · unfold statusWithinSelection removeFromShopping
    split
    · exact h
    · intro x hx
      rcases Finset.mem_erase.mp hx with ⟨hne, hx2⟩
      exact Finset.mem_erase.mpr ⟨hne, h hx2⟩
  · intro hmem
    unfold statusWithinSelection toggleItem
    split
    · exact fun x hx => h (Finset.mem_of_mem_erase hx)
    · exact Finset.insert_subset hmem h
  · unfold statusWithinSelection removeItem
    intro x hx
    rcases Finset.mem_erase.mp hx with ⟨hne, hx2⟩
    exact Finset.mem_erase.mpr ⟨hne, h hx2⟩
  · unfold statusWithinSelection clearShoppingList
    split
    · exact h
    · exact Finset.empty_subset _
  · unfold removeFromShopping
    split
    · intro hx
      rename_i hnm
      exact hnm (h hx)
    · exact Finset.not_mem_erase _ _
  · exact Finset.not_mem_erase _ _

/-- Witness for C8 at a concrete state with one selected, unchecked id. -/
theorem c8_statusSubsetPreserved_witness :
    statusWithinSelection (addToShopping "a" ⟨[], {"a"}, {"a"}⟩) ∧
    statusWithinSelection (removeFromShopping "a" ⟨[], {"a"}, {"a"}⟩) ∧
    statusWithinSelection (toggleItem false "a" ⟨[], {"a"}, {"a"}⟩) ∧
    statusWithinSelection (removeItem "a" ⟨[], {"a"}, {"a"}⟩) ∧
    statusWithinSelection (clearShoppingList ⟨[], {"a"}, {"a"}⟩) ∧
    "a" ∉ (removeFromShopping "a" ⟨[], {"a"}, {"a"}⟩).uncheckedSet ∧
    "a" ∉ (removeItem "a" ⟨[], {"a"}, {"a"}⟩).uncheckedSet := by
  have hmain := c8_statusSubsetPreserved ⟨[], {"a"}, {"a"}⟩
    (by unfold statusWithinSelection; decide) "a" false
  exact ⟨hmain.1, hmain.2.1, hmain.2.2.1 (by decide), hmain.2.2.2.1, hmain.2.2.2.2.1,
    hmain.2.2.2.2.2.1, hmain.2.2.2.2.2.2⟩

/-! ## C5: namespace validation -/

theorem validChar_not_ws {c : Char} (hv : validChar c = true) : isJsWs c = false := by
  by_contra hw
  rw [Bool.not_eq_false] at hw
  simp only [isJsWs, Bool.or_eq_true, beq_iff_eq] at hw
  rcases hw with ((((((rfl | rfl) | rfl) | rfl) | rfl) | rfl) | rfl) | rfl <;>
    exact absurd hv (by decide)

theorem string_ne_empty_iff {s : String} : s ≠ "" ↔ s.data ≠ [] := by
  constructor
  · intro h hc
    exact h (String.ext hc)
  · intro h hc
    rw [hc] at h
    exact h rfl

/-- Claim C5: `DataStore` construction succeeds exactly when the namespace
argument is a string of 1 to 255 characters drawn from `[A-Za-z0-9._-]`;
every other namespace (a non-string, empty or whitespace-only, overlong,
or containing a character outside the class) fails validation. -/
theorem c5_namespaceValidation (ns ty : Jval) :
    (dsConstructor ns ty).isOk = true ↔
      ∃ s, ns = jstr s ∧ 1 ≤ s.length ∧ s.length ≤ 255 ∧ s.data.all validChar = true := by
  have hmain : ∀ s : String,
      (validateNamespace (jstr s) = .ok ()) ↔
        (1 ≤ s.length ∧ s.length ≤ 255 ∧ s.data.all validChar = true) := by
    intro s
    simp only [validateNamespace]
    constructor
    · intro hok
      split_ifs at hok with h1 h2 h3
      · refine ⟨?_, by omega, h3⟩
        have hne : s ≠ "" := by
          intro hc
          rw [hc] at h1
          exact h1 rfl
        have hd : s.data ≠ [] := string_ne_empty_iff.mp hne
        have hpos : 0 < s.data.length := List.length_pos.mpr hd
        have hlen : s.length = s.data.length := rfl
        omega
    · rintro ⟨h1, h255, hall⟩
      have hallc : ∀ c ∈ s.data, validChar c = true := by
        intro c hc
        exact List.all_eq_true.mp hall c hc
      have htrim : jsTrim s = s :=
        jsTrim_eq_self (fun c hc => validChar_not_ws (hallc c hc))
      have hne : s.data ≠ [] := by
        intro hc
        have hlen : s.length = s.data.length := rfl
        rw [hlen, hc] at h1
        simp at h1
      rw [htrim, if_neg (string_ne_empty_iff.mpr hne), if_neg (by omega), if_pos hall]
  constructor
  · intro hok
    unfold dsConstructor at hok
    cases hns : validateNamespace ns with
    | error e => rw [hns] at hok; exact absurd hok (by simp [Except.isOk, Except.toBool])
    | ok u =>
        cases u
        cases ns with
        | jstr s =>
            exact ⟨s, rfl, ((hmain s).mp hns).1, ((hmain s).mp hns).2.1,
              ((hmain s).mp hns).2.2⟩
        | jnull => exact absurd hns (by simp [validateNamespace])
        | jbool b => exact absurd hns (by simp [validateNamespace])
        | jnum m e => exact absurd hns (by simp [validateNamespace])
        | jarr l => exact absurd hns (by simp [validateNamespace])
        | jobj fs => exact absurd hns (by simp [validateNamespace])
  · rintro ⟨s, rfl, h1, h255, hall⟩
    have hv := (hmain s).mpr ⟨h1, h255, hall⟩
    unfold dsConstructor
    rw [hv]
    rfl

/-! ## C10: the storage-type argument cannot fail construction -/

/-- Claim C10: for every storage-type value outside
`{'local','sync','managed','session'}` (including non-strings), the
constructor behaves exactly as with `'local'`: construction succeeds
whenever the namespace is valid, and the selected type is `'local'`. -/
theorem c10_typeFallback (ns ty : Jval) (hty : ty ∉ validTypesJ) :
    dsConstructor ns ty = dsConstructor ns (jstr "local") ∧
    ((validateNamespace ns).isOk = true →
      ∃ cfg, dsConstructor ns ty = .ok cfg ∧ cfg.type = "local") := by
  unfold dsConstructor
  cases hns : validateNamespace ns with
  | error e =>
      refine ⟨rfl, ?_⟩
      intro hok
      exact absurd hok (by simp [Except.isOk, Except.toBool])
  | ok u =>
      cases u
      constructor
      · rw [if_neg hty, if_pos (by decide)]
      · intro _
        refine ⟨_, rfl, ?_⟩
        rw [if_neg hty]

/-- Witness for C10: a numeric storage type argument falls back to
`'local'` and construction still succeeds. -/
theorem c10_typeFallback_witness :
    dsConstructor (jstr "ns") (jnum 3 0) = dsConstructor (jstr "ns") (jstr "local") ∧
    (∃ cfg, dsConstructor (jstr "ns") (jnum 3 0) = .ok cfg ∧ cfg.type = "local") := by
  have hmain := c10_typeFallback (jstr "ns") (jnum 3 0) (by decide)
  exact ⟨hmain.1, hmain.2 (by decide)⟩

/-! ## Import merger: generated ids are fresh -/

theorem genId_inj (now : Nat) {a b : Nat} (h : genId now a = genId now b) : a = b := by
  unfold genId at h
  have hd := congrArg String.data h
  simp only [String.data_append, List.append_assoc] at hd
  have h1 := List.append_cancel_left hd
  have h2 := List.append_cancel_left h1
  have h3 := List.append_cancel_left h2
  exact natLit_injective (String.ext h3)

theorem makeUniqueIdAux_not_mem (now : Nat) (ids : Finset String) :
    ∀ fuel counter, (∃ k, k < fuel ∧ genId now (counter + k) ∉ ids) →
      (makeUniqueIdAux now ids counter fuel).1 ∉ ids := by
  intro fuel
  induction fuel with
  | zero =>
      rintro counter ⟨k, hk, _⟩
      omega
  | succ fuel ih =>
      rintro counter ⟨k, hk, hfree⟩
      by_cases hmem : genId now counter ∈ ids
      · have hk0 : k ≠ 0 := by
          rintro rfl
          exact hfree hmem
        obtain ⟨k2, rfl⟩ : ∃ k2, k = k2 + 1 := ⟨k - 1, by omega⟩
        have hfree2 : genId now ((counter + 1) + k2) ∉ ids := by
          have harith : counter + (k2 + 1) = (counter + 1) + k2 := by ring
          rwa [harith] at hfree
        simp only [makeUniqueIdAux]
        rw [if_pos hmem]
        exact ih (counter + 1) ⟨k2, by omega, hfree2⟩
      · simp only [makeUniqueIdAux]
        rw [if_neg hmem]
        exact hmem

theorem exists_genId_not_mem (now : Nat) (ids : Finset String) (counter : Nat) :
    ∃ k, k < ids.card + 1 ∧ genId now (counter + k) ∉ ids := by
  by_contra hcon
  push_neg at hcon
  have hinj : ∀ k1 ∈ Finset.range (ids.card + 1), ∀ k2 ∈ Finset.range (ids.card + 1),
      genId now (counter + k1) = genId now (counter + k2) → k1 = k2 := by
    intro k1 _ k2 _ heq
    have := genId_inj now heq
    omega
  have hsub : (Finset.range (ids.card + 1)).image (fun k => genId now (counter + k)) ⊆ ids := by
    intro x hx
    rcases Finset.mem_image.mp hx with ⟨k, hk, rfl⟩
    exact hcon k (Finset.mem_range.mp hk)
  have hcard := Finset.card_le_card hsub
  rw [Finset.card_image_of_injOn hinj, Finset.card_range] at hcard
  omega

/-- The id returned by `makeUniqueId` avoids the whole current id set. -/
theorem makeUniqueId_not_mem (now : Nat) (ids : Finset String) (counter : Nat) :
    (makeUniqueId now ids counter).1 ∉ ids :=
  makeUniqueIdAux_not_mem now ids (ids.card + 1) counter
    (exists_genId_not_mem now ids counter)

/-! ## Import merger: loop invariants -/

/-- An accepted item is stored with trimmed fields, so its catalog key is
the key computed in the loop. -/
theorem itemKey_mk (id : String) (raw : Jval) (p : Rat) :
    itemKey ⟨id, recStoreStr raw, recItemStr raw, p⟩ = recKey raw := by
  unfold itemKey recKey recStoreStr recItemStr
  rw [jsTrim_idem, jsTrim_idem]

/-- The invariant the import loop maintains: the key set indexes exactly
the keys of existing-plus-accepted items; every such item's id is in the
id set; and (relative to a duplicate-free existing catalog) keys and ids
of existing-plus-accepted items stay duplicate-free. -/
def importInvariant (existing : List Item) (s : ImportState) : Prop :=
  s.existingKeySet = ((existing ++ s.toAdd).map itemKey).toFinset ∧
  (∀ i ∈ (existing ++ s.toAdd).map Item.id, i ∈ s.existingIdSet) ∧
  ((existing.map itemKey).Nodup → ((existing ++ s.toAdd).map itemKey).Nodup) ∧
  ((existing.map Item.id).Nodup → ((existing ++ s.toAdd).map Item.id).Nodup)

theorem importInvariant_init (existing : List Item) :
    importInvariant existing (initImportState existing) := by
  unfold importInvariant initImportState
  refine ⟨by simp, by simp, by simp, by simp⟩

theorem nodup_append_singleton {α : Type} {l : List α} {x : α}
    (hl : l.Nodup) (hx : x ∉ l) : (l ++ [x]).Nodup := by
  rw [List.nodup_append]
  refine ⟨hl, List.nodup_singleton x, ?_⟩
  intro a ha hb
  simp only [List.mem_singleton] at hb
  subst hb
  exact hx ha

theorem importInvariant_step (existing : List Item) (now : Nat) (s : ImportState)
    (raw : Jval) (hinv : importInvariant existing s) :
    importInvariant existing (importStep now s raw) := by
  obtain ⟨hkeys, hids, hnk, hni⟩ := hinv
  unfold importStep
  by_cases hval : recValid raw
  on_goal 2 =>
    simp only [hval, Bool.not_false, if_true]
    exact ⟨hkeys, hids, hnk, hni⟩
  simp only [hval, Bool.not_true, Bool.false_eq_true, if_false]
  by_cases hdup1 : recKey raw ∈ s.existingKeySet
  on_goal 1 =>
    rw [if_pos hdup1]
    exact ⟨hkeys, hids, hnk, hni⟩
  rw [if_neg hdup1]
  by_cases hdup2 : s.toAdd.any (fun x => addKey x == recKey raw)
  on_goal 1 =>
    rw [if_pos hdup2]
    exact ⟨hkeys, hids, hnk, hni⟩
  rw [if_neg hdup2]
  -- accepted: the new key is fresh relative to merged keys by `hkeys`
  have hkeyfresh : recKey raw ∉ ((existing ++ s.toAdd).map itemKey) := by
    intro hmem
    apply hdup1
    rw [hkeys]
    exact List.mem_toFinset.mpr hmem
  -- both accept branches have the same shape; handle them uniformly
  have hbranch : ∀ (newId : String) (c2 : Nat), newId ∉ s.existingIdSet →
      importInvariant existing
        { s with
          toAdd := s.toAdd ++ [⟨newId, recStoreStr raw, recItemStr raw, recPrice raw⟩]
          counter := c2
          existingIdSet := insert newId s.existingIdSet
          existingKeySet := insert (recKey raw) s.existingKeySet } := by
    intro newId c2 hidfree
    have hidfresh : newId ∉ ((existing ++ s.toAdd).map Item.id) :=
      fun hmem => hidfree (hids _ hmem)
    refine ⟨?_, ?_, ?_, ?_⟩
    · rw [hkeys]
      ext x
      simp only [← List.append_assoc, List.map_append, List.map_cons, List.map_nil,
        List.toFinset_append, Finset.mem_union, Finset.mem_insert, List.mem_toFinset,
        List.toFinset_cons, List.toFinset_nil, insert_emptyc_eq, Finset.mem_singleton,
        itemKey_mk]
      tauto
    · intro i hi
      simp only [← List.append_assoc, List.map_append, List.map_cons, List.map_nil,
        List.mem_append, List.mem_singleton] at hi
      rcases hi with hi | hi
      · exact Finset.mem_insert_of_mem (hids i (by simpa using hi))
      · rw [hi]
        exact Finset.mem_insert_self _ _
    · intro hnd
      rw [← List.append_assoc, List.map_append]
      simp only [List.map_cons, List.map_nil]
      apply nodup_append_singleton (hnk hnd)
      rw [itemKey_mk]
      exact hkeyfresh
    · intro hnd
      rw [← List.append_assoc, List.map_append]
      simp only [List.map_cons, List.map_nil]
      exact nodup_append_singleton (hni hnd) hidfresh
  by_cases hid : suppliedId raw = "" ∨ suppliedId raw ∈ s.existingIdSet
  · rw [if_pos hid]
    exact hbranch _ _ (makeUniqueId_not_mem now s.existingIdSet s.counter)
  · rw [if_neg hid]
    push_neg at hid
    exact hbranch _ _ hid.2

theorem importInvariant_run (existing : List Item) (now : Nat) (data : List Jval) :
    importInvariant existing (runImport existing now data) := by
  unfold runImport
  have hstep : ∀ (l : List Jval) (s : ImportState), importInvariant existing s →
      importInvariant existing (l.foldl (importStep now) s) := by
    intro l
    induction l with
    | nil => intro s hs; exact hs
    | cons x xs ih =>
        intro s hs
        exact ih _ (importInvariant_step existing now s x hs)
  exact hstep data _ (importInvariant_init existing)

/-! ## C1: duplicate records are skipped and counted; merged keys stay unique -/

/-- Claim C1: a valid import record whose deduplication key
`lowercase(trim(store)) + "|" + lowercase(trim(item))` is already indexed —
the key set holds exactly the keys of the existing catalog and of the
records accepted earlier in the batch, by the second conjunct — is skipped
and counted as a duplicate, touching neither the accepted items nor the
invalid counter; consequently, when the existing catalog has no two items
with the same key, the merged catalog `existing ++ toAdd` has no two items
with the same key. -/
theorem c1_duplicateSkip :
    (∀ (now : Nat) (s : ImportState) (raw : Jval), recValid raw = true →
      recKey raw ∈ s.existingKeySet →
      importStep now s raw = { s with skippedDuplicates := s.skippedDuplicates + 1 }) ∧
    (∀ (existing : List Item) (now : Nat) (data : List Jval),
      (runImport existing now data).existingKeySet =
        ((existing ++ (runImport existing now data).toAdd).map itemKey).toFinset) ∧
    (∀ (existing : List Item) (now : Nat) (data : List Jval),
      (existing.map itemKey).Nodup →
      ((existing ++ (runImport existing now data).toAdd).map itemKey).Nodup) := by
  refine ⟨?_, ?_, ?_⟩
  · intro now s raw hval hkey
    unfold importStep
    simp only [hval, Bool.not_true, Bool.false_eq_true, if_false]
    rw [if_pos hkey]
  · intro existing now data
    exact (importInvariant_run existing now data).1
  · intro existing now data hnd
    exact (importInvariant_run existing now data).2.2.1 hnd

/-- Witness for C1: importing `auchan|milk` (differently cased and spaced)
into a catalog holding `Auchan|Milk` counts one duplicate, and the merged
catalog keys stay duplicate-free. -/
theorem c1_duplicateSkip_witness :
    importStep 0 (initImportState [⟨"i1", "Auchan", "Milk", 0⟩])
        (jobj (JObj.ofList [("store", jstr "AUCHAN "), ("item", jstr "milk")])) =
      { initImportState [⟨"i1", "Auchan", "Milk", 0⟩] with skippedDuplicates := 1 } ∧
    ((([⟨"i1", "Auchan", "Milk", 0⟩] : List Item) ++
      (runImport [⟨"i1", "Auchan", "Milk", 0⟩] 0
        [jobj (JObj.ofList [("store", jstr "AUCHAN "), ("item", jstr "milk")])]).toAdd).map
          itemKey).Nodup := by
  constructor
  · exact c1_duplicateSkip.1 0 (initImportState [⟨"i1", "Auchan", "Milk", 0⟩])
      (jobj (JObj.ofList [("store", jstr "AUCHAN "), ("item", jstr "milk")]))
      (by decide) (by decide)
  · exact c1_duplicateSkip.2.2 [⟨"i1", "Auchan", "Milk", 0⟩] 0
      [jobj (JObj.ofList [("store", jstr "AUCHAN "), ("item", jstr "milk")])]
      (by decide)

/-! ## C2: id assignment (corrected) -/

/-- Counterexample to claim C2 as stated: in the batch
`[{id:"x",store:"a",item:"b"}, {id:"x",store:"a",item:"c"}]` against an
empty catalog, the second record supplies the non-empty id `"x"`, which is
not in the existing catalog's id set, yet its stored id is the synthesized
`"item-7-0"`, not `"x"` — the code also tests supplied ids against ids
accepted earlier in the same batch. -/
theorem c2_idAssignment_counterexample :
    suppliedId (jobj (JObj.ofList [("id", jstr "x"), ("store", jstr "a"), ("item", jstr "c")]))
      = "x" ∧
    "x" ∉ (initImportState []).existingIdSet ∧
    (runImport [] 7
      [jobj (JObj.ofList [("id", jstr "x"), ("store", jstr "a"), ("item", jstr "b")]),
       jobj (JObj.ofList [("id", jstr "x"), ("store", jstr "a"), ("item", jstr "c")])]).toAdd.map
        Item.id = ["x", "item-7-0"] := by
  decide

/-- Claim C2 as amended: a supplied non-empty id is kept exactly when it is
absent from the evolving id set (existing catalog ids plus all ids — kept
or synthesized — of records accepted earlier in the same batch); otherwise
a fresh id avoiding that whole set is synthesized; and, provided the
existing catalog's ids are pairwise distinct, the merged catalog's ids are
pairwise distinct. -/
theorem c2_idAssignment :
    (∀ (now : Nat) (s : ImportState) (raw : Jval), recValid raw = true →
      recKey raw ∉ s.existingKeySet →
      s.toAdd.any (fun x => addKey x == recKey raw) = false →
      suppliedId raw ≠ "" → suppliedId raw ∉ s.existingIdSet →
      importStep now s raw =
        { s with
          toAdd := s.toAdd ++
            [⟨suppliedId raw, recStoreStr raw, recItemStr raw, recPrice raw⟩]
          existingIdSet := insert (suppliedId raw) s.existingIdSet
          existingKeySet := insert (recKey raw) s.existingKeySet }) ∧
    (∀ (now : Nat) (s : ImportState) (raw : Jval), recValid raw = true →
      recKey raw ∉ s.existingKeySet →
      s.toAdd.any (fun x => addKey x == recKey raw) = false →
      (suppliedId raw = "" ∨ suppliedId raw ∈ s.existingIdSet) →
      ∃ it, (importStep now s raw).toAdd = s.toAdd ++ [it] ∧
        it.id ∉ s.existingIdSet) ∧
    (∀ (existing : List Item) (now : Nat) (data : List Jval),
      (existing.map Item.id).Nodup →
      ((existing ++ (runImport existing now data).toAdd).map Item.id).Nodup) := by
  refine ⟨?_, ?_, ?_⟩
  · intro now s raw hval hk1 hk2 hne hnotin
    unfold importStep
    simp only [hval, Bool.not_true, Bool.false_eq_true, if_false]
    rw [if_neg hk1, if_neg (by rw [hk2]; simp), if_neg (by push_neg; exact ⟨hne, hnotin⟩)]
  · intro now s raw hval hk1 hk2 hid
    unfold importStep
    simp only [hval, Bool.not_true, Bool.false_eq_true, if_false]
    rw [if_neg hk1, if_neg (by rw [hk2]; simp), if_pos hid]
    exact ⟨_, rfl, makeUniqueId_not_mem now s.existingIdSet s.counter⟩
  · intro existing now data hnd
    exact (importInvariant_run existing now data).2.2.2 hnd

/-- Witness for C2 (amended): a fresh supplied id is kept; a colliding one
is replaced by a synthesized id outside the current id set; ids of a
merged catalog stay pairwise distinct. -/
theorem c2_idAssignment_witness :
    importStep 7 (initImportState [])
        (jobj (JObj.ofList [("id", jstr "x"), ("store", jstr "a"), ("item", jstr "b")])) =
      { initImportState [] with
        toAdd := [⟨"x", "a", "b", 0⟩]
        existingIdSet := insert "x" (initImportState []).existingIdSet
        existingKeySet := insert "a|b" (initImportState []).existingKeySet } ∧
    (∃ it, (importStep 7
        { initImportState [] with
          toAdd := [⟨"x", "a", "b", 0⟩]
          existingIdSet := insert "x" (initImportState []).existingIdSet
          existingKeySet := insert "a|b" (initImportState []).existingKeySet }
        (jobj (JObj.ofList
          [("id", jstr "x"), ("store", jstr "a"), ("item", jstr "c")]))).toAdd =
      [⟨"x", "a", "b", 0⟩] ++ [it] ∧
      it.id ∉ (insert "x" (initImportState []).existingIdSet : Finset String)) ∧
    ((([] : List Item) ++ (runImport [] 7
      [jobj (JObj.ofList [("id", jstr "x"), ("store", jstr "a"), ("item", jstr "b")]),
       jobj (JObj.ofList [("id", jstr "x"), ("store", jstr "a"), ("item", jstr "c")])]).toAdd).map
        Item.id).Nodup := by
  refine ⟨?_, ?_, ?_⟩
  · have h := c2_idAssignment.1 7 (initImportState [])
      (jobj (JObj.ofList [("id", jstr "x"), ("store", jstr "a"), ("item", jstr "b")]))
      (by decide) (by decide) (by decide) (by decide) (by decide)
    rw [h]
    decide
  · have h := c2_idAssignment.2.1 7
      { initImportState [] with
        toAdd := [⟨"x", "a", "b", 0⟩]
        existingIdSet := insert "x" (initImportState []).existingIdSet
        existingKeySet := insert "a|b" (initImportState []).existingKeySet }
      (jobj (JObj.ofList [("id", jstr "x"), ("store", jstr "a"), ("item", jstr "c")]))
      (by decide) (by decide) (by decide) (by decide)
    exact h
  · exact c2_idAssignment.2.2 [] 7 _ (by decide)

/-! ## C3: record validity (corrected) -/

/-- Counterexample to claim C3 as stated: the record
`{store:" ",item:"Milk"}` has a store field that is whitespace-only —
empty after trimming — yet it is not counted invalid: it is accepted into
the merged catalog, with the store stored as the empty string.  The code
tests JS truthiness of the raw field values before trimming. -/
theorem c3_validity_counterexample :
    recValid (jobj (JObj.ofList [("store", jstr " "), ("item", jstr "Milk")])) = true ∧
    (runImport [] 0
      [jobj (JObj.ofList [("store", jstr " "), ("item", jstr "Milk")])]).skippedInvalid = 0 ∧
    (runImport [] 0
      [jobj (JObj.ofList [("store", jstr " "), ("item", jstr "Milk")])]).toAdd =
      [⟨"item-0-0", "", "Milk", 0⟩] := by
  decide

/-- Claim C3 as amended: a record is skipped and counted as invalid exactly
when its extracted store or item field value is JS-falsy before any
trimming (absent, `null`, the empty string, `0`, or `false`); an invalid
record changes nothing but the invalid counter, a valid record never
touches that counter.  In particular a whitespace-only string field is
truthy, so such records are accepted (with the field trimmed to the empty
string) rather than counted invalid. -/
theorem c3_validity :
    (∀ (now : Nat) (s : ImportState) (raw : Jval), recValid raw = false →
      importStep now s raw = { s with skippedInvalid := s.skippedInvalid + 1 }) ∧
    (∀ (now : Nat) (s : ImportState) (raw : Jval), recValid raw = true →
      (importStep now s raw).skippedInvalid = s.skippedInvalid) ∧
    (∀ st it : String,
      recValid (jobj (JObj.ofList [("store", jstr st), ("item", jstr it)])) =
        (decide (st ≠ "") && decide (it ≠ ""))) := by
  refine ⟨?_, ?_, ?_⟩
  · intro now s raw hval
    unfold importStep
    simp only [hval, Bool.not_false, if_true]
  · intro now s raw hval
    unfold importStep
    simp only [hval, Bool.not_true, Bool.false_eq_true, if_false]
    split
    · rfl
    · split
      · rfl
      · split <;> rfl
  · intro st it
    rfl

/-- Witness for C3 (amended): a record with a `0` store field is counted
invalid and adds nothing; a valid record leaves the invalid counter
alone. -/
theorem c3_validity_witness :
    importStep 0 (initImportState [])
        (jobj (JObj.ofList [("store", jnum 0 0), ("item", jstr "Milk")])) =
      { initImportState [] with skippedInvalid := 1 } ∧
    (importStep 0 (initImportState [])
        (jobj (JObj.ofList [("store", jstr "A"), ("item", jstr "Milk")]))).skippedInvalid = 0 ∧
    recValid (jobj (JObj.ofList [("store", jstr " "), ("item", jstr "Milk")])) =
      (decide ((" " : String) ≠ "") && decide (("Milk" : String) ≠ "")) := by
  refine ⟨?_, ?_, ?_⟩
  · exact c3_validity.1 0 (initImportState [])
      (jobj (JObj.ofList [("store", jnum 0 0), ("item", jstr "Milk")])) (by decide)
  · have h := c3_validity.2.1 0 (initImportState [])
      (jobj (JObj.ofList [("store", jstr "A"), ("item", jstr "Milk")])) (by decide)
    rw [h]
    rfl
  · exact c3_validity.2.2 " " "Milk"

/-! ## C9: accepted price (corrected) -/

/-- Counterexample to claim C9 as stated: importing
`{store:"A",item:"B",price:-1}` accepts the record with price `-1`, which
is negative — a finite negative supplied price is stored as-is, so the
resulting price is not always `≥ 0`. -/
theorem c9_price_counterexample :
    (runImport [] 0
      [jobj (JObj.ofList
        [("store", jstr "A"), ("item", jstr "B"), ("price", jnum (-1) 0)])]).toAdd.map
          Item.price = [(-1 : Rat)] ∧ ((-1 : Rat) < 0) := by
  constructor
  · decide
  · norm_num

/-- Claim C9 as amended: every accepted record's stored price is
`Number(price)` — the exact numeric value when the supplied price field is
a finite number or a numeric string, and `0` when it is absent,
`NaN`-producing, or unparseable; the stored price is nonnegative whenever
that numeric value is (in particular whenever the field is absent or
unparseable), but a negative supplied value is stored negative. -/
theorem c9_price :
    (∀ (now : Nat) (s : ImportState) (raw : Jval) (it : Item),
      (importStep now s raw).toAdd = s.toAdd ++ [it] → it.price = recPrice raw) ∧
    (∀ raw : Jval, recPriceRaw raw = none → recPrice raw = 0) ∧
    (∀ raw : Jval, jsToNumber (recPriceRaw raw) = none → recPrice raw = 0) ∧
    (∀ (raw : Jval) (q : Rat), jsToNumber (recPriceRaw raw) = some q → recPrice raw = q) ∧
    (∀ (raw : Jval) (q : Rat), jsToNumber (recPriceRaw raw) = some q → 0 ≤ q →
      0 ≤ recPrice raw) := by
  refine ⟨?_, ?_, ?_, ?_, ?_⟩
  · intro now s raw it hgrow
    simp only [importStep] at hgrow
    split at hgrow
    · exact absurd (congrArg List.length hgrow) (by simp)
    · split at hgrow
      · exact absurd (congrArg List.length hgrow) (by simp)
      · split at hgrow
        · exact absurd (congrArg List.length hgrow) (by simp)
        · split at hgrow <;>
          · have h2 := List.append_cancel_left hgrow
            simp only [List.cons.injEq, and_true] at h2
            rw [← h2]
  · intro raw h
    unfold recPrice
    rw [h]
    rfl
  · intro raw h
    unfold recPrice
    rw [h]
  · intro raw q h
    unfold recPrice
    rw [h]
  · intro raw q h hq
    unfold recPrice
    rw [h]
    exact hq

/-- Witness for C9 (amended): an accepted record with no price field gets
price `0`; a numeric price is stored exactly. -/
theorem c9_price_witness :
    ((importStep 0 (initImportState [])
        (jobj (JObj.ofList [("store", jstr "A"), ("item", jstr "B")]))).toAdd =
      (initImportState []).toAdd ++ [⟨"item-0-0", "A", "B", 0⟩] →
      Item.price ⟨"item-0-0", "A", "B", 0⟩ =
        recPrice (jobj (JObj.ofList [("store", jstr "A"), ("item", jstr "B")]))) ∧
    recPrice (jobj (JObj.ofList [("store", jstr "A"), ("item", jstr "B")])) = 0 ∧
    recPrice (jobj (JObj.ofList
      [("store", jstr "A"), ("item", jstr "B"), ("price", jnum 3 0)])) = 3 := by
  refine ⟨?_, ?_, ?_⟩
  · intro h
    exact c9_price.1 0 (initImportState [])
      (jobj (JObj.ofList [("store", jstr "A"), ("item", jstr "B")])) _ h
  · exact c9_price.2.1 (jobj (JObj.ofList [("store", jstr "A"), ("item", jstr "B")]))
      (by decide)
  · exact c9_price.2.2.2.1 (jobj (JObj.ofList
      [("store", jstr "A"), ("item", jstr "B"), ("price", jnum 3 0)])) 3 (by decide)

/-! ## C6: `merge` — supporting lemmas on object operations -/

theorem lookupO_setKeyO_self (fs : JObj) (k : String) (v : Jval) :
    lookupO (setKeyO fs k v) k = some v := by
  induction fs using JObj.inductionOn with
  | hnil => simp [setKeyO, lookupO]
  | hcons k0 v0 tl ih =>
      by_cases hk : k0 = k
      · subst hk
        simp [setKeyO, lookupO]
      · simp [setKeyO, lookupO, hk, ih]

theorem lookupO_setKeyO_ne (fs : JObj) {k k2 : String} (v : Jval) (hk : k ≠ k2) :
    lookupO (setKeyO fs k v) k2 = lookupO fs k2 := by
  induction fs using JObj.inductionOn with
  | hnil => simp [setKeyO, lookupO, hk]
  | hcons k0 v0 tl ih =>
      by_cases h0 : k0 = k
      · subst h0
        simp [setKeyO, lookupO, hk]
      · simp [setKeyO, lookupO, h0, ih]

theorem lookupO_eq_none_of_not_mem_keys {fs : JObj} {k : String}
    (h : k ∉ keysO fs) : lookupO fs k = none := by
  induction fs using JObj.inductionOn with
  | hnil => rfl
  | hcons k0 v0 tl ih =>
      simp only [keysO, List.mem_cons, not_or] at h
      have hne : ¬ k0 = k := fun hc => h.1 hc.symm
      simp [lookupO, hne, ih h.2]

theorem lookupO_appendO (a b : JObj) (k : String) :
    lookupO (appendO a b) k = (lookupO a k).or (lookupO b k) := by
  induction a using JObj.inductionOn with
  | hnil => simp [appendO, lookupO]
  | hcons k0 v0 tl ih =>
      by_cases hk : k0 = k
      · subst hk
        simp [appendO, lookupO]
      · simp [appendO, lookupO, hk, ih]

theorem lookupO_overrideO (a b : JObj) (k : String) :
    lookupO (overrideO a b) k = (lookupO a k).map (fun v => (lookupO b k).getD v) := by
  induction a using JObj.inductionOn with
  | hnil => simp [overrideO, lookupO]
  | hcons k0 v0 tl ih =>
      by_cases hk : k0 = k
      · subst hk
        simp [overrideO, lookupO]
      · simp [overrideO, lookupO, hk, ih]

theorem lookupO_filterNewO (b a : JObj) (k : String) :
    lookupO (filterNewO b a) k =
      if (lookupO a k).isSome = true then none else lookupO b k := by
  induction b using JObj.inductionOn with
  | hnil => simp [filterNewO, lookupO]
  | hcons k0 v0 tl ih =>
      by_cases hk : k0 = k
      · subst hk
        cases ha : lookupO a k0 with
        | none => simp [filterNewO, ha, lookupO]
        | some w => simp [filterNewO, ha, lookupO, ih]
      · cases ha : lookupO a k0 with
        | none => simp [filterNewO, ha, lookupO, hk, ih]
        | some w => simp [filterNewO, ha, lookupO, hk, ih]

/-- The shallow merge `{...a, ...b}` looks up `b` first, then `a`. -/
theorem lookupO_spreadO (a b : JObj) (k : String) :
    lookupO (spreadO a b) k = (lookupO b k).or (lookupO a k) := by
  unfold spreadO
  rw [lookupO_appendO, lookupO_overrideO, lookupO_filterNewO]
  cases ha : lookupO a k with
  | none => cases hb : lookupO b k <;> simp
  | some v => cases hb : lookupO b k <;> simp

theorem deepAssign_of_not_obj {sv : Jval} (old : Option Jval)
    (h : ∀ so, sv ≠ jobj so) : deepAssign sv old = sv := by
  cases sv with
  | jobj so => exact absurd rfl (h so)
  | jnull => cases old with
      | none => rfl
      | some w => cases w <;> rfl
  | jbool b => cases old with
      | none => rfl
      | some w => cases w <;> rfl
  | jnum m e => cases old with
      | none => rfl
      | some w => cases w <;> rfl
  | jstr s2 => cases old with
      | none => rfl
      | some w => cases w <;> rfl
  | jarr l => cases old with
      | none => rfl
      | some w => cases w <;> rfl

theorem deepMergeO_cons (t : JObj) (k : String) (sv : Jval) (rest : JObj) :
    deepMergeO t (.cons k sv rest) =
      deepMergeO (setKeyO t k (deepAssign sv (lookupO t k))) rest := by
  by_cases hobj : ∃ so, sv = jobj so
  · obtain ⟨so, rfl⟩ := hobj
    cases hl : lookupO t k with
    | some w =>
        cases w with
        | jobj tOb =>
            rw [deepMergeO.eq_2 t k rest so tOb hl]
            rfl
        | jnull =>
            rw [deepMergeO.eq_3 t k rest _ (by
              intro so2 tOb _ hlk
              rw [hl] at hlk
              injection hlk with h2
              exact Jval.noConfusion h2)]
            rfl
        | jbool b =>
            rw [deepMergeO.eq_3 t k rest _ (by
              intro so2 tOb _ hlk
              rw [hl] at hlk
              injection hlk with h2
              exact Jval.noConfusion h2)]
            rfl
        | jnum m e =>
            rw [deepMergeO.eq_3 t k rest _ (by
              intro so2 tOb _ hlk
              rw [hl] at hlk
              injection hlk with h2
              exact Jval.noConfusion h2)]
            rfl
        | jstr s2 =>
            rw [deepMergeO.eq_3 t k rest _ (by
              intro so2 tOb _ hlk
              rw [hl] at hlk
              injection hlk with h2
              exact Jval.noConfusion h2)]
            rfl
        | jarr l =>
            rw [deepMergeO.eq_3 t k rest _ (by
              intro so2 tOb _ hlk
              rw [hl] at hlk
              injection hlk with h2
              exact Jval.noConfusion h2)]
            rfl
    | none =>
        rw [deepMergeO.eq_3 t k rest _ (by
          intro so2 tOb _ hlk
          rw [hl] at hlk
          exact Option.noConfusion hlk)]
        rfl
  · have hno : ∀ so, sv ≠ jobj so := fun so hc => hobj ⟨so, hc⟩
    rw [deepMergeO.eq_3 t k rest sv
      (fun so tOb hso _ => hno so hso), deepAssign_of_not_obj _ hno]

/-- Characterization of `_deepMerge`: for a source object with pairwise
distinct keys, a key bound to a plain object on both sides merges
recursively, any other key bound by the source is replaced by the source
value, and keys the source does not bind keep the target's value. -/
theorem lookupO_deepMergeO :
    ∀ (s t : JObj), (keysO s).Nodup → ∀ k : String,
      lookupO (deepMergeO t s) k =
        match lookupO s k, lookupO t k with
        | some (jobj so), some (jobj tOb) => some (jobj (deepMergeO tOb so))
        | some sv, _ => some sv
        | none, o => o := by
  intro s
  induction s using JObj.inductionOn with
  | hnil =>
      intro t _ k
      simp [deepMergeO, lookupO]
  | hcons k0 sv rest ih =>
      intro t hnd k
      have hnd2 : (k0 :: keysO rest).Nodup := by simpa [keysO] using hnd
      have hnd0 : k0 ∉ keysO rest := (List.nodup_cons.mp hnd2).1
      have hndr : (keysO rest).Nodup := (List.nodup_cons.mp hnd2).2
      rw [deepMergeO_cons, ih _ hndr k]
      by_cases hk : k0 = k
      · subst hk
        rw [lookupO_eq_none_of_not_mem_keys hnd0, lookupO_setKeyO_self]
        show some (deepAssign sv (lookupO t k0)) = _
        have hcons : lookupO (JObj.cons k0 sv rest) k0 = some sv := by
          simp [lookupO]
        rw [hcons]
        unfold deepAssign
        cases sv <;> cases hl : lookupO t k0 <;> try rfl
        all_goals rename_i w; cases w <;> rfl
      · have h1 : lookupO (JObj.cons k0 sv rest) k = lookupO rest k := by
          simp [lookupO, hk]
        have h2 : lookupO (setKeyO t k0 (deepAssign sv (lookupO t k0))) k = lookupO t k :=
          lookupO_setKeyO_ne t _ hk
        rw [h1, h2]

/-- Claim C6: shallow merge overwrites the stored object's top-level keys
with those of the argument and keeps the rest; deep merge recursively
merges nested plain-object values and replaces arrays and primitives; the
merged object is persisted and returned; merge fails when the argument is
not a plain object or the stored value is not typeof-`object` (numbers,
strings, booleans — and arrays, which fail their explicit check).  The
spec's two concrete examples are included. -/
theorem c6_merge :
    (∀ nf fs : JObj,
      dsMerge (jobj nf) false (some (jobj fs)) =
        .ok (jobj (spreadO fs nf), some (jobj (spreadO fs nf)))) ∧
    (∀ (nf fs : JObj) (k : String),
      lookupO (spreadO fs nf) k = (lookupO nf k).or (lookupO fs k)) ∧
    (∀ nf fs : JObj,
      dsMerge (jobj nf) true (some (jobj fs)) =
        .ok (jobj (deepMergeO fs nf), some (jobj (deepMergeO fs nf)))) ∧
    (∀ (nf fs : JObj) (k : String), (keysO nf).Nodup →
      lookupO (deepMergeO fs nf) k =
        match lookupO nf k, lookupO fs k with
        | some (jobj so), some (jobj tOb) => some (jobj (deepMergeO tOb so))
        | some sv, _ => some sv
        | none, o => o) ∧
    (∀ (v : Jval) (deep : Bool) (st : Option Jval),
      (∀ nf, v ≠ jobj nf) → (dsMerge v deep st).isOk = false) ∧
    (∀ (nf : JObj) (deep : Bool) (cur : Jval), cur ≠ jnull → (∀ fs, cur ≠ jobj fs) →
      (dsMerge (jobj nf) deep (some cur)).isOk = false) ∧
    dsMerge (jobj (JObj.ofList [("a", jnum 1 0)])) false
        (some (jobj (JObj.ofList [("a", jnum 0 0), ("b", jnum 2 0)]))) =
      .ok (jobj (JObj.ofList [("a", jnum 1 0), ("b", jnum 2 0)]),
        some (jobj (JObj.ofList [("a", jnum 1 0), ("b", jnum 2 0)]))) ∧
    (∃ m, dsMerge (jobj (JObj.ofList [("a", jobj (JObj.ofList [("x", jnum 1 0)]))])) true
        (some (jobj (JObj.ofList [("a", jobj (JObj.ofList [("y", jnum 2 0)]))]))) =
      .ok (jobj m, some (jobj m)) ∧
      (∃ inner, lookupO m "a" = some (jobj inner) ∧
        lookupO inner "x" = some (jnum 1 0) ∧ lookupO inner "y" = some (jnum 2 0))) := by
  refine ⟨?_, ?_, ?_, ?_, ?_, ?_, ?_, ?_⟩
  · intro nf fs
    rfl
  · intro nf fs k
    exact lookupO_spreadO fs nf k
  · intro nf fs
    rfl
  · intro nf fs k hnd
    exact lookupO_deepMergeO nf fs hnd k
  · intro v deep st hv
    cases v with
    | jobj nf => exact absurd rfl (hv nf)
    | jnull => rfl
    | jbool b => rfl
    | jnum m e => rfl
    | jstr s2 => rfl
    | jarr l => rfl
  · intro nf deep cur h0 h1
    cases cur with
    | jnull => exact absurd rfl h0
    | jobj fs => exact absurd rfl (h1 fs)
    | jbool b => rfl
    | jnum m e => rfl
    | jstr s2 => rfl
    | jarr l => rfl
  · decide
  · refine ⟨JObj.ofList [("a", jobj (JObj.ofList [("y", jnum 2 0), ("x", jnum 1 0)]))],
      by decide, JObj.ofList [("y", jnum 2 0), ("x", jnum 1 0)], by decide, by decide,
      by decide⟩

/-- Witness for C6: the hypothesis-bearing components applied at concrete
inputs (a duplicate-free one-key source object; a numeric argument; a
numeric stored value). -/
theorem c6_merge_witness :
    (lookupO (deepMergeO (JObj.ofList [("b", jnum 2 0)]) (JObj.ofList [("a", jnum 1 0)])) "a" =
      some (jnum 1 0)) ∧
    (dsMerge (jnum 5 0) false none).isOk = false ∧
    (dsMerge (jobj .nil) false (some (jnum 5 0))).isOk = false := by
  refine ⟨?_, ?_, ?_⟩
  · have h := c6_merge.2.2.2.1 (JObj.ofList [("a", jnum 1 0)]) (JObj.ofList [("b", jnum 2 0)])
      "a" (by decide)
    rw [h]
    decide
  · exact c6_merge.2.2.2.2.1 (jnum 5 0) false none (fun nf h => by injection h)
  · exact c6_merge.2.2.2.2.2.1 .nil false (jnum 5 0) (by intro h; injection h)
      (fun fs h => by injection h)

/-! ## C7: `deleteItem` — supporting lemmas -/

theorem natLit_ne_length (i : Nat) : natLit i ≠ "length" := by
  intro h
  have hd : natLitChars i = "length".data := congrArg String.data h
  have hmem : 'l' ∈ natLitChars i := by
    rw [hd]
    decide
  have := natLitChars_all_digits i 'l' hmem
  exact absurd this (by decide)

theorem lengthA_setA (l : JArr) (i : Nat) (v : Jval) :
    lengthA (setA l i v) = lengthA l := by
  induction l using JArr.inductionOn generalizing i with
  | hnil => rfl
  | hcons x tl ih =>
      cases i with
      | zero => rfl
      | succ n => simp [setA, lengthA, ih]

theorem arrIndexOf_setA (l : JArr) (i : Nat) (v : Jval) (key : String) :
    arrIndexOf (setA l i v) key = arrIndexOf l key := by
  unfold arrIndexOf
  rw [lengthA_setA]

theorem getA_setA (l : JArr) (i : Nat) (v : Jval) (hi : i < lengthA l) :
    getA (setA l i v) i = v := by
  induction l using JArr.inductionOn generalizing i with
  | hnil => simp [lengthA] at hi
  | hcons x tl ih =>
      cases i with
      | zero => rfl
      | succ n =>
          simp only [lengthA] at hi
          exact ih n (by omega)

theorem arrIndexOf_some {l : JArr} {key : String} {i : Nat}
    (h : arrIndexOf l key = some i) : key = natLit i ∧ i < lengthA l := by
  unfold arrIndexOf at h
  have hp := List.find?_some h
  have hm := List.mem_of_find?_eq_some h
  rw [List.mem_range] at hm
  rw [beq_iff_eq] at hp
  exact ⟨hp.symm, hm⟩

theorem lookupO_removeKeyO_self (fs : JObj) (key : String) :
    lookupO (removeKeyO fs key) key = none := by
  induction fs using JObj.inductionOn with
  | hnil => rfl
  | hcons k0 v0 tl ih =>
      by_cases hk : k0 = key
      · simp [removeKeyO, hk, ih]
      · simp [removeKeyO, lookupO, hk, ih]

/-- `key in parent` only succeeds on objects and arrays. -/
theorem jsInB_ok_container {key : String} {v : Jval} {b : Bool}
    (h : jsInB key v = .ok b) : (∃ fs, v = jobj fs) ∨ (∃ l, v = jarr l) := by
  cases v with
  | jobj fs => exact Or.inl ⟨fs, rfl⟩
  | jarr l => exact Or.inr ⟨l, rfl⟩
  | jnull => exact absurd h (by simp [jsInB])
  | jbool b2 => exact absurd h (by simp [jsInB])
  | jnum m e => exact absurd h (by simp [jsInB])
  | jstr s2 => exact absurd h (by simp [jsInB])

/-- Unfolding of one navigation step on a non-`null` node. -/
theorem navigate_cons (data : Jval) (part : String) (rest : List String)
    (hnull : data ≠ jnull) :
    navigate data (part :: rest) =
      match jsInB part data with
      | .error e => .error e
      | .ok false => .error "Path not found"
      | .ok true => navigate (childOf data part) rest := by
  cases data with
  | jnull => exact absurd rfl hnull
  | jobj fs => rfl
  | jarr l => rfl
  | jbool b => rfl
  | jnum m e => rfl
  | jstr s2 => rfl

theorem navigate_cons_inv {data parent : Jval} {part : String} {rest : List String}
    (h : navigate data (part :: rest) = .ok parent) :
    data ≠ jnull ∧ jsInB part data = .ok true ∧
      navigate (childOf data part) rest = .ok parent := by
  by_cases hnull : data = jnull
  · subst hnull
    have hc : navigate jnull (part :: rest) = .error "Cannot navigate through null" := rfl
    rw [hc] at h
    exact absurd h (by simp)
  · rw [navigate_cons data part rest hnull] at h
    cases hin : jsInB part data with
    | error e =>
        rw [hin] at h
        exact absurd h (by simp)
    | ok b =>
        cases b with
        | false =>
            rw [hin] at h
            exact absurd h (by simp)
        | true =>
            rw [hin] at h
            exact ⟨hnull, rfl, h⟩

theorem navigate_num {m : Int} {e : Nat} {parts : List String} {parent : Jval}
    (h : navigate (jnum m e) parts = .ok parent) : parts = [] ∧ parent = jnum m e := by
  cases parts with
  | nil =>
      refine ⟨rfl, ?_⟩
      have hc : navigate (jnum m e) [] = .ok (jnum m e) := rfl
      rw [hc] at h
      injection h with h2
      exact h2.symm
  | cons p r =>
      have hc : navigate (jnum m e) (p :: r) = .error "TypeError" := rfl
      rw [hc] at h
      exact absurd h (by simp)

/-- In a container that admitted `part`, updating the child at `part`
preserves membership, the update is what is read back, and the container
stays a container. -/
theorem setChildOf_spec {data : Jval} {part : String} (nv : Jval)
    (hin : jsInB part data = .ok true)
    (hnotlen : ∀ l : JArr, data = jarr l → part ≠ "length") :
    jsInB part (setChildOf data part nv) = .ok true ∧
      childOf (setChildOf data part nv) part = nv ∧
      setChildOf data part nv ≠ jnull := by
  cases data with
  | jobj fs =>
      refine ⟨?_, ?_, by simp [setChildOf]⟩
      · simp [setChildOf, jsInB, lookupO_setKeyO_self]
      · simp [setChildOf, childOf, lookupO_setKeyO_self]
  | jarr l =>
      have hlen : part ≠ "length" := hnotlen l rfl
      have hidx : ∃ i, arrIndexOf l part = some i := by
        simp only [jsInB] at hin
        injection hin with h2
        rw [Bool.or_eq_true] at h2
        rcases h2 with h2 | h2
        · exact absurd (by simpa using h2) hlen
        · exact Option.isSome_iff_exists.mp h2
      obtain ⟨i, hi⟩ := hidx
      obtain ⟨hkey, hlt⟩ := arrIndexOf_some hi
      refine ⟨?_, ?_, ?_⟩
      · simp only [setChildOf, hi, jsInB]
        rw [arrIndexOf_setA, hi]
        simp
      · simp only [setChildOf, hi, childOf]
        rw [if_neg (by simp [hlen]), arrIndexOf_setA, hi]
        simp only [Option.getD_some]
        exact getA_setA l i nv hlt
      · simp [setChildOf, hi]
  | jnull => exact absurd hin (by simp [jsInB])
  | jbool b2 => exact absurd hin (by simp [jsInB])
  | jnum m e => exact absurd hin (by simp [jsInB])
  | jstr s2 => exact absurd hin (by simp [jsInB])

/-- Shape of a successful terminal deletion. -/
theorem delAtParent_ok_some {parent parent2 : Jval} {key : String}
    (h : delAtParent parent key = .ok (some parent2)) :
    (∃ fs, parent = jobj fs ∧ (lookupO fs key).isSome = true ∧
      parent2 = jobj (removeKeyO fs key)) ∨
    (∃ l i, parent = jarr l ∧ arrIndexOf l key = some i ∧
      parent2 = jarr (removeA l i)) := by
  cases parent with
  | jobj fs =>
      cases hlk : lookupO fs key with
      | none =>
          rw [show delAtParent (jobj fs) key = .ok none from by
            simp [delAtParent, jsInB, hlk]] at h
          exact absurd h (by simp)
      | some w =>
          rw [show delAtParent (jobj fs) key = .ok (some (jobj (removeKeyO fs key))) from by
            simp [delAtParent, jsInB, hlk]] at h
          injection h with h2
          injection h2 with h3
          exact Or.inl ⟨fs, rfl, by simp [hlk], h3.symm⟩
  | jarr l =>
      cases hi : arrIndexOf l key with
      | some i =>
          rw [show delAtParent (jarr l) key = .ok (some (jarr (removeA l i))) from by
            simp [delAtParent, jsInB, hi]] at h
          injection h with h2
          injection h2 with h3
          exact Or.inr ⟨l, i, rfl, hi, h3.symm⟩
      | none =>
          by_cases hlen : key = "length"
          · rw [show delAtParent (jarr l) key = .error "Invalid array index" from by
              subst hlen; simp [delAtParent, jsInB, hi]] at h
            exact absurd h (by simp)
          · have hb : (key == "length") = false := by simp [hlen]
            rw [show delAtParent (jarr l) key = .ok none from by
              simp [delAtParent, jsInB, hi, hb]] at h
            exact absurd h (by simp)
  | jnull => exact absurd h (by simp [delAtParent, jsInB])
  | jbool b2 => exact absurd h (by simp [delAtParent, jsInB])
  | jnum m e => exact absurd h (by simp [delAtParent, jsInB])
  | jstr s2 => exact absurd h (by simp [delAtParent, jsInB])

/-- Unfolding of one `delPath` step on a non-`null` node. -/
theorem delPath_cons (data : Jval) (part : String) (rest : List String) (key : String)
    (hnull : data ≠ jnull) :
    delPath data (part :: rest) key =
      match jsInB part data with
      | .error e => .error e
      | .ok false => .error "Path not found"
      | .ok true =>
          match delPath (childOf data part) rest key with
          | .error e => .error e
          | .ok none => .ok none
          | .ok (some child2) => .ok (some (setChildOf data part child2)) := by
  cases data with
  | jnull => exact absurd rfl hnull
  | jobj fs => rfl
  | jarr l => rfl
  | jbool b => rfl
  | jnum m e => rfl
  | jstr s2 => rfl

/-- If navigation reaches the parent but the terminal key is not in it,
the deletion walk returns `none` (JS `return false`). -/
theorem delPath_false {data parent : Jval} {key : String} (parts : List String)
    (hnav : navigate data parts = .ok parent)
    (hin : jsInB key parent = .ok false) :
    delPath data parts key = .ok none := by
  induction parts generalizing data with
  | nil =>
      have hp : data = parent := by
        have hc : navigate data [] = .ok data := rfl
        rw [hc] at hnav
        exact Except.ok.inj hnav
      show delAtParent data key = .ok none
      rw [hp]
      simp [delAtParent, hin]
  | cons part rest ih =>
      obtain ⟨hnull, hinp, hnav2⟩ := navigate_cons_inv hnav
      have hdp := ih hnav2
      rw [delPath_cons data part rest key hnull, hinp, hdp]

/-- If navigation reaches the parent and the terminal deletion succeeds,
the deletion walk succeeds and navigating the rebuilt root reaches the
rewritten parent. -/
theorem delPath_of_navigate {data parent parent2 : Jval} {key : String}
    (parts : List String)
    (hnav : navigate data parts = .ok parent)
    (hdel : delAtParent parent key = .ok (some parent2)) :
    ∃ data2, delPath data parts key = .ok (some data2) ∧
      navigate data2 parts = .ok parent2 := by
  induction parts generalizing data with
  | nil =>
      have hp : data = parent := by
        have hc : navigate data [] = .ok data := rfl
        rw [hc] at hnav
        exact Except.ok.inj hnav
      subst hp
      exact ⟨parent2, hdel, rfl⟩
  | cons part rest ih =>
      obtain ⟨hnull, hinp, hnav2⟩ := navigate_cons_inv hnav
      obtain ⟨c2, hdp, hnavc⟩ := ih hnav2
      have hnotlen : ∀ l : JArr, data = jarr l → part ≠ "length" := by
        intro l hdl hplen
        subst hdl
        subst hplen
        have hch : childOf (jarr l) "length" = jnum (lengthA l) 0 := by
          simp [childOf]
        rw [hch] at hnav2
        obtain ⟨-, hpar⟩ := navigate_num hnav2
        subst hpar
        exact absurd hdel (by simp [delAtParent, jsInB])
      obtain ⟨hin2, hch2, hnn2⟩ := setChildOf_spec c2 hinp hnotlen
      refine ⟨setChildOf data part c2, ?_, ?_⟩
      · rw [delPath_cons data part rest key hnull, hinp, hdp]
      · rw [navigate_cons _ part rest hnn2, hin2, hch2]
        exact hnavc

/-- A `false` outcome of `deleteItem` never changes the store. -/
theorem dsDeleteItem_false_unchanged {path : String} {st st2 : Option Jval}
    (h : dsDeleteItem path st = .ok (false, st2)) : st2 = st := by
  by_cases ht : jsTrim path = ""
  · rw [show dsDeleteItem path st = .error "Path must be a non-empty string" from by
      simp [dsDeleteItem, ht]] at h
    exact absurd h (by simp)
  · cases hg : dsGet none st with
    | none =>
        rw [show dsDeleteItem path st = .ok (false, st) from by
          simp [dsDeleteItem, ht, hg]] at h
        injection h with h2
        injection h2 with h3 h4
        exact h4.symm
    | some data =>
        cases htr : jsTruthy data with
        | false =>
            rw [show dsDeleteItem path st = .ok (false, st) from by
              simp [dsDeleteItem, ht, hg, htr]] at h
            injection h with h2
            injection h2 with h3 h4
            exact h4.symm
        | true =>
            cases hd : delPath data (splitOnDots path).dropLast
                ((splitOnDots path).getLast?.getD "") with
            | error e =>
                rw [show dsDeleteItem path st = .error e from by
                  simp [dsDeleteItem, ht, hg, htr, hd]] at h
                exact absurd h (by simp)
            | ok o =>
                cases o with
                | none =>
                    rw [show dsDeleteItem path st = .ok (false, st) from by
                      simp [dsDeleteItem, ht, hg, htr, hd]] at h
                    injection h with h2
                    injection h2 with h3 h4
                    exact h4.symm
                | some d2 =>
                    rw [show dsDeleteItem path st = .ok (true, some d2) from by
                      simp [dsDeleteItem, ht, hg, htr, hd]] at h
                    injection h with h2
                    injection h2 with h3 h4
                    exact Bool.noConfusion h3

/-- **C7** (corrected).  `deleteItem` behaviour over the embedded store:
(a) any `false` outcome leaves the stored data unchanged; (b) when
navigation reaches the parent and the terminal key is not an own
property, the result is `(false, unchanged store)` — but a path whose
*intermediate* segment is missing is an error, not `false`; (c) when the
terminal deletion succeeds the result is `true`, the rebuilt data is
persisted, and navigating it reaches the rewritten parent; (d) the
rewritten parent is the object with the terminal key removed (that key is
then absent from it) or the array with the numeric index spliced out
(later elements shift down, so the same index may still exist). -/
theorem c7_deleteItem :
    (∀ path st st2, dsDeleteItem path st = .ok (false, st2) → st2 = st) ∧
    (∀ path st data parent, jsTrim path ≠ "" → dsGet none st = some data →
      jsTruthy data = true →
      navigate data (splitOnDots path).dropLast = .ok parent →
      jsInB ((splitOnDots path).getLastD "") parent = .ok false →
      dsDeleteItem path st = .ok (false, st)) ∧
    (∀ path st data parent parent2, jsTrim path ≠ "" → dsGet none st = some data →
      jsTruthy data = true →
      navigate data (splitOnDots path).dropLast = .ok parent →
      delAtParent parent ((splitOnDots path).getLastD "") = .ok (some parent2) →
      ∃ data2, dsDeleteItem path st = .ok (true, some data2) ∧
        navigate data2 (splitOnDots path).dropLast = .ok parent2) ∧
    (∀ parent parent2 key, delAtParent parent key = .ok (some parent2) →
      (∃ fs, parent = jobj fs ∧ parent2 = jobj (removeKeyO fs key) ∧
        lookupO (removeKeyO fs key) key = none) ∨
      (∃ l i, parent = jarr l ∧ arrIndexOf l key = some i ∧
        parent2 = jarr (removeA l i))) := by
  refine ⟨?_, ?_, ?_, ?_⟩
  · intro path st st2 h
    exact dsDeleteItem_false_unchanged h
  · intro path st data parent ht hg htr hnav hin
    have hd := delPath_false _ hnav hin
    rw [List.getLastD_eq_getLast?] at hd
    simp [dsDeleteItem, ht, hg, htr, hd]
  · intro path st data parent parent2 ht hg htr hnav hdel
    obtain ⟨data2, hdp, hnav2⟩ := delPath_of_navigate _ hnav hdel
    rw [List.getLastD_eq_getLast?] at hdp
    exact ⟨data2, by simp [dsDeleteItem, ht, hg, htr, hdp], hnav2⟩
  · intro parent parent2 key h
    rcases delAtParent_ok_some h with ⟨fs, hpe, hsome, hp2⟩ | ⟨l, i, hpe, hio, hp2⟩
    · exact Or.inl ⟨fs, hpe, hp2, lookupO_removeKeyO_self fs key⟩
    · exact Or.inr ⟨l, i, hpe, hio, hp2⟩

/-- **C7** counterexample to the claim as stated: `deleteItem("b.c")` on
stored `{a:1}` throws `Path not found` (the missing segment is
intermediate), it does not return `false`; and `deleteItem("a.1")` on
stored `{a:[10,20,30]}` returns `true` with `{a:[10,30]}` persisted, yet
the path `a.1` still exists afterwards (the splice shifted `30` down). -/
theorem c7_deleteItem_counterexample :
    dsDeleteItem "b.c" (some (jobj (JObj.ofList [("a", jnum 1 0)]))) =
      .error "Path not found" ∧
    dsDeleteItem "a.1"
      (some (jobj (JObj.ofList
        [("a", jarr (JArr.ofList [jnum 10 0, jnum 20 0, jnum 30 0]))]))) =
      .ok (true, some (jobj (JObj.ofList
        [("a", jarr (JArr.ofList [jnum 10 0, jnum 30 0]))]))) ∧
    jsInB "1" (jarr (JArr.ofList [jnum 10 0, jnum 30 0])) = .ok true := by
  refine ⟨by decide, by decide, by decide⟩

/-- `deleteItem("a.b")` on stored `{a:{c:1}}`: the terminal key `b` is
missing, so the result is `false` with the store unchanged. -/
theorem c7_deleteItem_witness :
    dsDeleteItem "a.b"
      (some (jobj (JObj.ofList [("a", jobj (JObj.ofList [("c", jnum 1 0)]))]))) =
    .ok (false,
      some (jobj (JObj.ofList [("a", jobj (JObj.ofList [("c", jnum 1 0)]))]))) := by
  exact c7_deleteItem.2.1 "a.b"
    (some (jobj (JObj.ofList [("a", jobj (JObj.ofList [("c", jnum 1 0)]))])))
    (jobj (JObj.ofList [("a", jobj (JObj.ofList [("c", jnum 1 0)]))]))
    (jobj (JObj.ofList [("c", jnum 1 0)]))
    (by decide) (by decide) (by decide) (by decide) (by decide)

/-- Claim C4: on the web-storage path, `set(v)` followed by `get(d)`
returns the stored value itself for every JSON value `v` — nested objects,
arrays and empty containers included — and `get(d)` on a namespace that
was never written returns the supplied default `d`, including `undefined`
(`none`). -/
theorem c4_roundTrip :
    (∀ (v : Jval) (d : Option Jval) (st : Option String),
      webGet d (webSet v st) = some v) ∧
    (∀ d : Option Jval, webGet d none = d) := by
  refine ⟨?_, fun d => rfl⟩
  intro v d st
  show (match parseJSON (stringify v) with
        | some w => some w
        | none => d) = some v
  rw [parseJSON_stringify v]

end Groceries
